import Mathlib

/-!
# LightweightIoT: line-protocol encoder, bounded tag set, bounded batch buffer

A shallow embedding of `src/LightweightIoT.cpp` / `src/LightweightIoT.h`.

Conventions of the embedding:

* a C++ `String` is the list of its characters (`Str`);
* the fixed arrays `tags[MAX_TAGS]` and `batchBuffer[MAX_BATCH_SIZE]` are lists holding
  every slot of the array, next to the counters `tagCount` and `batchCount`;
* `unsigned long` arithmetic is arithmetic on `Nat` reduced modulo `2 ^ w`, where `w` is
  the width of `unsigned long` on the target (32 on the ESP32 and on every Arduino core,
  64 on an LP64 host);
* the outside world (WiFi status, the HTTP server, the blocking `delay`) is the record
  `World`; every HTTP POST and every `delay` is appended to `World.trace`;
* `millis()` is an input of the operation that reads it;
* `Serial` output (debug printing) is not modelled.
-/

namespace LightweightIoT

/-- A C++ `String`, as the list of its characters. -/
abbrev Str := List Char

/-! ## `escapeString` (LightweightIoT.cpp, lines 4-27) -/

/-- Index of the first occurrence of `ch` in `str`, if any. -/
def findIn (ch : Char) : Str → Option Nat
  | [] => none
  | c :: cs => if c = ch then some 0 else (findIn ch cs).map (· + 1)

/-- The call `str.find(ch, pos)` of `std::string`: the first index `≥ pos` holding `ch`;
`none` is `String::npos`. -/
def find (str : Str) (ch : Char) (pos : Nat) : Option Nat :=
  (findIn ch (str.drop pos)).map (· + pos)

/-- The call `str.replace(pos, len, rep)` of `std::string`. -/
def replace (str : Str) (pos len : Nat) (rep : Str) : Str :=
  str.take pos ++ rep ++ str.drop (pos + len)

/-- The loop
`while ((pos = str.find(ch, pos)) != npos) { str.replace(pos, 1, rep); pos += 2; }`.
One unit of `fuel` is spent per iteration; with no fuel left the current string is
returned (`replaceLoop_fuel` and `replaceLoop_same` show that the fuel given by
`escapeString` is enough: more fuel does not change the result). -/
def replaceLoop (ch : Char) (rep : Str) : Nat → Str → Nat → Str
  | 0, str, _ => str
  | fuel + 1, str, pos =>
    match find str ch pos with
    | none => str
    | some p => replaceLoop ch rep fuel (replace str p 1 rep) (p + 2)

/-- The C++ literal `"\ "` of lines 6 and 12. A backslash followed by a space is not an
escape sequence of C++; GCC and Clang (the Arduino toolchains) warn
"unknown escape sequence" and keep the character after the backslash, so the literal is
the one-character string holding a space. -/
def spaceReplacement : Str := [' ']

/-- The C++ literal `"\\,"` of lines 7 and 17: a backslash and a comma. -/
def commaReplacement : Str := ['\\', ',']

/-- The C++ literal `"\\="` of lines 8 and 22: a backslash and an equals sign. -/
def equalsReplacement : Str := ['\\', '=']

/-- The function `escapeString` (the `std::string` branch, lines 10-24): three passes, for the
space, the comma and the equals sign, each restarting at `pos = 0`. -/
def escapeString (str : Str) : Str :=
  let s1 := replaceLoop ' ' spaceReplacement (str.length + 1) str 0
  let s2 := replaceLoop ',' commaReplacement (s1.length + 1) s1 0
  replaceLoop '=' equalsReplacement (s2.length + 1) s2 0

/-- Arduino `String::replace(find, rep)` for a one-character `find`: every occurrence
of `ch`, left to right, is replaced by `rep`. -/
def replaceAll (ch : Char) (rep : Str) (str : Str) : Str :=
  str.flatMap (fun c => if c = ch then rep else [c])

/-- The function `escapeString`, `ARDUINO` branch (lines 6-8). -/
def escapeStringArduino (str : Str) : Str :=
  replaceAll '=' equalsReplacement (replaceAll ',' commaReplacement
    (replaceAll ' ' spaceReplacement str))

/-! ## Data model (LightweightIoT.h) -/

/-- The constant `MAX_TAGS` (LightweightIoT.h, line 176). -/
def MAX_TAGS : Nat := 10

/-- The constant `MAX_BATCH_SIZE` (LightweightIoT.h, line 181). -/
def MAX_BATCH_SIZE : Nat := 50

/-- The enum `ErrorCode` (LightweightIoT.h, lines 32-42). -/
inductive ErrorCode
  | NO_ERROR
  | NOT_CONNECTED
  | HTTP_ERROR
  | BATCH_FULL
  | INVALID_DATA
  | TIMEOUT
  | MEMORY_ERROR
  | INVALID_CONFIG
  | AUTH_ERROR
  deriving DecidableEq, Repr

/-- The struct `Config` (LightweightIoT.h, lines 47-59). `maxRetries` is a `uint8_t`. -/
structure Config where
  maxRetries : Fin 256 := 3
  retryDelay : Nat := 1000
  timeout : Nat := 5000
  debugMode : Bool := false
  reconnectDelay : Nat := 5000
  autoReconnect : Bool := true
  maxPointSize : Nat := 1024
  useStaticBuffer : Bool := false
  staticBufferSize : Nat := 2048
  useLowPowerMode : Bool := false
  deepSleepDuration : Nat := 0
  deriving DecidableEq, Repr

/-- The struct `Location` (LightweightIoT.h, lines 64-85). -/
structure Location where
  building : Str := []
  floor : Str := []
  room : Str := []
  zone : Str := []
  deriving DecidableEq, Repr

/-- The method `Location::isValid` (LightweightIoT.h, lines 77-82). -/
def Location.isValid (l : Location) : Bool :=
  !l.building.isEmpty && decide (l.building.length ≤ 64) &&
    decide (l.floor.length ≤ 32) &&
    decide (l.room.length ≤ 32) &&
    decide (l.zone.length ≤ 32)

/-- The struct `Device` of the outer class (LightweightIoT.h, lines 90-109), with a
structured `Location`. -/
structure Device where
  id : Str := []
  location : Location := {}
  type : Str := []
  description : Str := []
  deriving DecidableEq, Repr

/-- The method `Device::isValid` (LightweightIoT.h, lines 103-108). -/
def Device.isValid (d : Device) : Bool :=
  !d.id.isEmpty && decide (d.id.length ≤ 64) &&
    !d.type.isEmpty && decide (d.type.length ≤ 32) &&
    decide (d.description.length ≤ 128) &&
    d.location.isValid

/-- The struct `Measurement` of the outer class (LightweightIoT.h, lines 114-132). -/
structure Measurement where
  name : Str
  field : Str
  value : Str
  time : Nat := 0
  deriving DecidableEq, Repr

/-- The method `Measurement::isValid` (LightweightIoT.h, lines 127-131). -/
def Measurement.isValid (m : Measurement) : Bool :=
  !m.name.isEmpty && decide (m.name.length ≤ 64) &&
    !m.field.isEmpty && decide (m.field.length ≤ 32) &&
    !m.value.isEmpty && decide (m.value.length ≤ 64)

/-- The enum `TimeUnit` (LightweightIoT.h, lines 284-289). -/
inductive TimeUnit
  | SECONDS
  | MILLISECONDS
  | MICROSECONDS
  | NANOSECONDS
  deriving DecidableEq, Repr

/-- The struct `Device` of the nested class (LightweightIoT.h, lines 274-281), whose
`location` is a plain string. This is the type `setDevice` works on: it reads
`device.location.length()`. -/
structure Nested.Device where
  id : Str := []
  location : Str := []
  description : Str := []
  deriving DecidableEq, Repr

/-- The struct `Measurement` of the nested class (LightweightIoT.h, lines 292-301), with a
time unit. This is the type `writeMeasurement` works on: it reads `measurement.unit`. -/
structure Nested.Measurement where
  name : Str
  field : Str
  value : Str
  time : Nat := 0
  unit : TimeUnit := TimeUnit.MILLISECONDS
  deriving DecidableEq, Repr

/-- The struct `Tag` (LightweightIoT.h, lines 172-175); a default-constructed tag holds
two empty strings. -/
structure Tag where
  key : Str := []
  value : Str := []
  deriving DecidableEq, Repr, Inhabited

/-- The data members of the class `LightweightIoT`. `tags` and `batchBuffer` hold every
slot of the two fixed arrays; `tagCount` and `batchCount` (`int` in the source, never
negative) count the slots in use. -/
structure Client where
  token : Str := []
  org : Str := []
  bucket : Str := []
  url : Str := []
  config : Config := {}
  lastError : ErrorCode := ErrorCode.NO_ERROR
  lastErrorMessage : Str := []
  tags : List Tag := List.replicate MAX_TAGS default
  tagCount : Nat := 0
  batchBuffer : List Str := List.replicate MAX_BATCH_SIZE []
  batchCount : Nat := 0
  batchMode : Bool := false
  currentDevice : Nested.Device := {}
  timeUnit : TimeUnit := TimeUnit.MILLISECONDS
  deriving DecidableEq, Repr

/-- The arrays have their declared sizes: `Tag tags[MAX_TAGS]` and
`String batchBuffer[MAX_BATCH_SIZE]`. -/
def Client.WellFormed (c : Client) : Prop :=
  c.tags.length = MAX_TAGS ∧ c.batchBuffer.length = MAX_BATCH_SIZE

instance (c : Client) : Decidable c.WellFormed :=
  inferInstanceAs (Decidable (c.tags.length = MAX_TAGS ∧ c.batchBuffer.length = MAX_BATCH_SIZE))

/-- The tag set: the tags in use, `tags[0] .. tags[tagCount - 1]`, in index order. -/
def Client.tagSet (c : Client) : List Tag :=
  (List.range c.tagCount).map (fun i => c.tags.getD i default)

/-- The batch: the lines in use, `batchBuffer[0] .. batchBuffer[batchCount - 1]`. -/
def Client.batch (c : Client) : List Str :=
  (List.range c.batchCount).map (fun i => c.batchBuffer.getD i [])

/-- The constructor `LightweightIoT(token, org, bucket)` (LightweightIoT.cpp, lines 29-37). -/
def construct (token org bucket : Str) : Client :=
  { token := token, org := org, bucket := bucket, tagCount := 0, batchCount := 0,
    batchMode := false, lastError := ErrorCode.NO_ERROR }

/-! ## The outside world -/

/-- What one `http.POST` answers: the status code and the body read by `http.getString()`. -/
structure HttpResponse where
  code : Int
  body : Str := []
  deriving DecidableEq, Repr

/-- An observable action of the client. -/
inductive Event
  | post (url : Str) (token : Str) (timeout : Nat) (payload : Str)
  | delay (ms : Nat)
  deriving DecidableEq, Repr

/-- The transport and the blocking sleep. `connected` is `WiFi.status() == WL_CONNECTED`;
`server k` is the answer to the `k`-th POST (counted from 0); `posted` counts the POSTs made;
`trace` lists the POSTs and delays made so far, oldest first. -/
structure World where
  connected : Bool
  server : Nat → HttpResponse
  posted : Nat := 0
  trace : List Event := []

/-- What an operation that may send leaves behind: `ret` is the returned `bool`, or `none`
when the retry loop was still running when the fuel ran out. -/
structure Res where
  ret : Option Bool
  client : Client
  world : World

/-! ## Number rendering -/

/-- The conversion `String(unsigned long)`: the decimal digits. -/
def stringOfNat (n : Nat) : Str := Nat.toDigits 10 n

/-- The conversion `String(int)`: the decimal digits, after a minus sign when negative. -/
def stringOfInt (n : Int) : Str :=
  if n < 0 then '-' :: stringOfNat n.natAbs else stringOfNat n.toNat

/-- The product `a * b` in `unsigned long` of width `w`. -/
def mulULong (w a b : Nat) : Nat := (a * b) % 2 ^ w

/-! ## The encoder (LightweightIoT.cpp, lines 39-88 and 275-304) -/

/-- The loop of lines 43-45 (and 60-62, 77-79, 310-312):
`for (i = 0; i < tagCount; i++) line += "," + escape(tags[i].key) + "=" + escape(tags[i].value)`. -/
def appendTags (c : Client) (line : Str) : Str :=
  (List.range c.tagCount).foldl
    (fun line i =>
      line ++ ([','] ++ escapeString (c.tags.getD i default).key ++ ['=']
        ++ escapeString (c.tags.getD i default).value))
    line

/-- The token `String(millis() * 1000000)` of lines 51, 68 and 85. -/
def millisToken (w millis : Nat) : Str := stringOfNat (mulULong w millis 1000000)

/-- The overload `formatLineProtocol(String, String, String)` (lines 39-54). -/
def formatLineProtocolString (w : Nat) (c : Client) (millis : Nat)
    (measurement field value : Str) : Str :=
  let line := escapeString measurement
  let line := appendTags c line
  let line := line ++ ([' '] ++ escapeString field ++ ['=', '"'] ++ escapeString value ++ ['"'])
  line ++ ([' '] ++ millisToken w millis)

/-- The overload `formatLineProtocol(String, String, float)` (lines 56-71). `valueText` is
`String(value)`, the rendering of the float by the Arduino core. -/
def formatLineProtocolFloat (w : Nat) (c : Client) (millis : Nat)
    (measurement field valueText : Str) : Str :=
  let line := escapeString measurement
  let line := appendTags c line
  let line := line ++ ([' '] ++ escapeString field ++ ['='] ++ valueText)
  line ++ ([' '] ++ millisToken w millis)

/-- The overload `formatLineProtocol(String, String, int)` (lines 73-88). -/
def formatLineProtocolInt (w : Nat) (c : Client) (millis : Nat)
    (measurement field : Str) (value : Int) : Str :=
  let line := escapeString measurement
  let line := appendTags c line
  let line := line ++ ([' '] ++ escapeString field ++ ['='] ++ stringOfInt value ++ ['i'])
  line ++ ([' '] ++ millisToken w millis)

/-- The method `getCurrentTimestamp` (lines 275-289); `millis` is the reading of `millis()`. -/
def getCurrentTimestamp (w : Nat) (c : Client) (millis : Nat) : Nat :=
  match c.timeUnit with
  | TimeUnit.SECONDS => millis / 1000
  | TimeUnit.MILLISECONDS => millis
  | TimeUnit.MICROSECONDS => mulULong w millis 1000
  | TimeUnit.NANOSECONDS => mulULong w millis 1000000

/-- The method `formatTimestamp` (lines 291-304). The `default:` label is unreachable for
the four values of the enum. -/
def formatTimestamp (w : Nat) (timestamp : Nat) (unit : TimeUnit) : Str :=
  match unit with
  | TimeUnit.SECONDS => stringOfNat (mulULong w timestamp 1000000000)
  | TimeUnit.MILLISECONDS => stringOfNat (mulULong w timestamp 1000000)
  | TimeUnit.MICROSECONDS => stringOfNat (mulULong w timestamp 1000)
  | TimeUnit.NANOSECONDS => stringOfNat timestamp

/-- The value of the local `lineProtocol` of `writeMeasurement` at line 319, before it is
batched or sent. -/
def measurementLine (w : Nat) (c : Client) (millis : Nat) (measurement : Nested.Measurement) :
    Str :=
  let lineProtocol := escapeString measurement.name
  let lineProtocol := appendTags c lineProtocol
  let lineProtocol := lineProtocol ++
    ([' '] ++ escapeString measurement.field ++ ['=', '"'] ++ escapeString measurement.value
      ++ ['"'])
  let timestamp :=
    if 0 < measurement.time then measurement.time else getCurrentTimestamp w c millis
  lineProtocol ++ ([' '] ++ formatTimestamp w timestamp measurement.unit)

/-! ## Error slot, retry and transport (LightweightIoT.cpp, lines 106-168) -/

/-- The method `setError` (lines 106-115). -/
def setError (c : Client) (code : ErrorCode) (message : Str) : Client :=
  { c with lastError := code, lastErrorMessage := message }

/-- The method `clearError` (LightweightIoT.h, line 205). -/
def clearError (c : Client) : Client :=
  { c with lastError := ErrorCode.NO_ERROR, lastErrorMessage := [] }

/-- The loop of `retryOperation` (lines 118-133), entered with the `uint8_t` counter at
`attempt`. The operation works on a state `σ`, and so does the blocking `delay`. One unit
of `fuel` is spent per evaluation of the loop condition; `none` means the loop was still
running when the fuel ran out. The increment `attempt++` wraps at 256. -/
def retryLoop {σ : Type} (config : Config) (delay : Nat → σ → σ) (operation : σ → Bool × σ) :
    Nat → Nat → σ → Option Bool × σ
  | 0, _, s => (none, s)
  | fuel + 1, attempt, s =>
    if attempt ≤ config.maxRetries.val then
      let s1 := if 0 < attempt then delay config.retryDelay s else s
      match operation s1 with
      | (true, s2) => (some true, s2)
      | (false, s2) => retryLoop config delay operation fuel ((attempt + 1) % 256) s2
    else (some false, s)

/-- The method `retryOperation` (lines 117-134). -/
def retryOperation {σ : Type} (config : Config) (delay : Nat → σ → σ)
    (operation : σ → Bool × σ) (fuel : Nat) (s : σ) : Option Bool × σ :=
  retryLoop config delay operation fuel 0 s

/-- The call `delay(ms)`, recorded in the trace. -/
def delayWorld (ms : Nat) (s : Client × World) : Client × World :=
  (s.1, { s.2 with trace := s.2.trace ++ [Event.delay ms] })

/-- The closure handed to `retryOperation` by `sendToInfluxDB` (lines 142-167): one POST of
`lineProtocol`, a failure being written to the error slot. -/
def postOnce (lineProtocol : Str) (s : Client × World) : Bool × (Client × World) :=
  let c := s.1
  let world := s.2
  let response := world.server world.posted
  let world := { world with
    posted := world.posted + 1
    trace := world.trace ++ [Event.post c.url c.token c.config.timeout lineProtocol] }
  let httpResponseCode := response.code
  let success := decide (200 ≤ httpResponseCode) && decide (httpResponseCode < 300)
  if success then (true, (c, world))
  else
    let error := "HTTP error ".toList ++ stringOfInt httpResponseCode
    let error := if 0 < response.body.length then error ++ (": ".toList ++ response.body)
      else error
    (false, (setError c ErrorCode.HTTP_ERROR error, world))

/-- The method `sendToInfluxDB` (lines 136-168). -/
def sendToInfluxDB (fuel : Nat) (c : Client) (world : World) (lineProtocol : Str) : Res :=
  if !world.connected then
    ⟨some false, setError c ErrorCode.NOT_CONNECTED "WiFi not connected".toList, world⟩
  else
    let r := retryOperation c.config delayWorld (postOnce lineProtocol) fuel (c, world)
    ⟨r.1, r.2.1, r.2.2⟩

/-! ## Batch buffer (LightweightIoT.cpp, lines 170-218) -/

/-- The method `addToBatch` (lines 170-177). -/
def addToBatch (c : Client) (lineProtocol : Str) : Bool × Client :=
  if c.batchCount ≥ MAX_BATCH_SIZE then
    (false, setError c ErrorCode.BATCH_FULL "Batch buffer is full".toList)
  else
    (true, { c with
      batchBuffer := c.batchBuffer.set c.batchCount lineProtocol
      batchCount := c.batchCount + 1 })

/-- The method `setConfig` (lines 179-181). -/
def setConfig (c : Client) (config : Config) : Client :=
  { c with config := config }

/-- The method `beginBatch` (lines 183-185). -/
def beginBatch (c : Client) : Client :=
  { c with batchMode := true }

/-- The method `clearBatch` (lines 196-198). -/
def clearBatch (c : Client) : Client :=
  { c with batchCount := 0 }

/-- The loop of lines 206-212: the lines in use, a newline before each but the first. -/
def batchData (c : Client) : Str :=
  (List.range c.batchCount).foldl
    (fun data i =>
      let data := if 0 < i then data ++ ['\n'] else data
      data ++ c.batchBuffer.getD i [])
    []

/-- The method `flushBatch` (lines 200-218). When the send does not return, neither does
`flushBatch`, and `clearBatch` is not reached. -/
def flushBatch (fuel : Nat) (c : Client) (world : World) : Res :=
  if c.batchCount = 0 then ⟨some true, c, world⟩
  else
    let r := sendToInfluxDB fuel c world (batchData c)
    match r.ret with
    | none => r
    | some result => ⟨some result, clearBatch r.client, r.world⟩

/-- The method `endBatch` (lines 187-194). -/
def endBatch (fuel : Nat) (c : Client) (world : World) : Res :=
  if !c.batchMode || c.batchCount = 0 then ⟨some false, c, world⟩
  else
    let r := flushBatch fuel c world
    match r.ret with
    | none => r
    | some result => ⟨some result, { r.client with batchMode := false }, r.world⟩

/-! ## Writing points (LightweightIoT.cpp, lines 220-247) -/

/-- The overload `writePoint(String, String, float)` (lines 220-231); `valueText` is
`String(value)`. -/
def writePointFloat (w fuel : Nat) (c : Client) (world : World) (millis : Nat)
    (measurement field valueText : Str) : Res :=
  let c := clearError c
  let lineProtocol := formatLineProtocolFloat w c millis measurement field valueText
  if c.batchMode then
    let r := addToBatch c lineProtocol
    if !r.1 then
      ⟨some false, setError r.2 ErrorCode.BATCH_FULL "Batch buffer is full".toList, world⟩
    else ⟨some true, r.2, world⟩
  else sendToInfluxDB fuel c world lineProtocol

/-- The overload `writePoint(String, String, int)` (lines 233-239). -/
def writePointInt (w fuel : Nat) (c : Client) (world : World) (millis : Nat)
    (measurement field : Str) (value : Int) : Res :=
  let lineProtocol := formatLineProtocolInt w c millis measurement field value
  if c.batchMode then
    let r := addToBatch c lineProtocol
    ⟨some r.1, r.2, world⟩
  else sendToInfluxDB fuel c world lineProtocol

/-- The overload `writePoint(String, String, String)` (lines 241-247). -/
def writePointString (w fuel : Nat) (c : Client) (world : World) (millis : Nat)
    (measurement field value : Str) : Res :=
  let lineProtocol := formatLineProtocolString w c millis measurement field value
  if c.batchMode then
    let r := addToBatch c lineProtocol
    ⟨some r.1, r.2, world⟩
  else sendToInfluxDB fuel c world lineProtocol

/-! ## Tags and device (LightweightIoT.cpp, lines 249-273) -/

/-- The method `addTag` (lines 249-258). -/
def addTag (c : Client) (key value : Str) : Bool × Client :=
  if c.tagCount ≥ MAX_TAGS then (false, c)
  else
    (true, { c with
      tags := c.tags.set c.tagCount { key := key, value := value }
      tagCount := c.tagCount + 1 })

/-- The method `setTimeUnit` (LightweightIoT.h, line 306). -/
def setTimeUnit (c : Client) (unit : TimeUnit) : Client :=
  { c with timeUnit := unit }

/-- The method `clearTags` (lines 260-262). -/
def clearTags (c : Client) : Client :=
  { c with tagCount := 0 }

/-- The method `setDevice` (lines 264-273). -/
def setDevice (c : Client) (device : Nested.Device) : Client :=
  let c := { c with currentDevice := device }
  let c := clearTags c
  let c := if 0 < device.id.length then (addTag c "device".toList device.id).2 else c
  if 0 < device.location.length then (addTag c "location".toList device.location).2 else c

/-! ## Measurements (LightweightIoT.cpp, lines 306-335) -/

/-- The method `writeMeasurement` (lines 306-325); `millis` is what `millis()` reads if
`getCurrentTimestamp` is called. -/
def writeMeasurement (w fuel : Nat) (c : Client) (world : World) (millis : Nat)
    (measurement : Nested.Measurement) : Res :=
  let lineProtocol := measurementLine w c millis measurement
  if c.batchMode then
    let r := addToBatch c lineProtocol
    ⟨some r.1, r.2, world⟩
  else sendToInfluxDB fuel c world lineProtocol

/-- The loop of `writeMeasurements` (lines 329-333) over the measurements still to write,
followed by the `return endBatch()` of line 334. `millis i` is the clock reading during the
`i`-th iteration. -/
def writeMeasurementsLoop (w fuel : Nat) (millis : Nat → Nat) :
    List Nested.Measurement → Nat → Client → World → Res
  | [], _, c, world => endBatch fuel c world
  | m :: rest, i, c, world =>
    let r := writeMeasurement w fuel c world (millis i) m
    match r.ret with
    | none => r
    | some false => ⟨some false, r.client, r.world⟩
    | some true => writeMeasurementsLoop w fuel millis rest (i + 1) r.client r.world

/-- The method `writeMeasurements` (lines 327-335); the array and its `count` are the list
`measurements`. -/
def writeMeasurements (w fuel : Nat) (c : Client) (world : World) (millis : Nat → Nat)
    (measurements : List Nested.Measurement) : Res :=
  writeMeasurementsLoop w fuel millis measurements 0 (beginBatch c) world

/-! ## Drivers used to state properties of call sequences -/

/-- One `writePoint` call: its clock reading, measurement name, field key and value. -/
inductive PointCall
  | str (millis : Nat) (measurement field value : Str)
  | int (millis : Nat) (measurement field : Str) (value : Int)
  | float (millis : Nat) (measurement field valueText : Str)
  deriving DecidableEq, Repr

/-- The line the encoder renders for a `writePoint` call on client `c`. -/
def PointCall.line (w : Nat) (c : Client) : PointCall → Str
  | PointCall.str millis m f v => formatLineProtocolString w c millis m f v
  | PointCall.int millis m f v => formatLineProtocolInt w c millis m f v
  | PointCall.float millis m f v => formatLineProtocolFloat w c millis m f v

/-- The `writePoint` overload selected by the call. -/
def PointCall.run (w fuel : Nat) (c : Client) (world : World) : PointCall → Res
  | PointCall.str millis m f v => writePointString w fuel c world millis m f v
  | PointCall.int millis m f v => writePointInt w fuel c world millis m f v
  | PointCall.float millis m f v => writePointFloat w fuel c world millis m f v

/-- Consecutive `writePoint` calls: the list of returned values (in call order) and the
final client and world. A call that does not return ends the run. -/
def writePoints (w fuel : Nat) : List PointCall → Client → World → List (Option Bool) × Client × World
  | [], c, world => ([], c, world)
  | call :: rest, c, world =>
    let r := call.run w fuel c world
    match r.ret with
    | none => ([none], r.client, r.world)
    | some b =>
      let t := writePoints w fuel rest r.client r.world
      (some b :: t.1, t.2)

/-- The `,key=value` segment the encoder renders for one tag. -/
def tagSegment (t : Tag) : Str :=
  [','] ++ escapeString t.key ++ ['='] ++ escapeString t.value

/-- Consecutive `addTag` calls, in list order; the returned values are dropped. -/
def addTags (c : Client) : List Tag → Client
  | [] => c
  | t :: rest => addTags (addTag c t.key t.value).2 rest

/-- How many characters of `s` the code escapes: its commas and equals signs. -/
def escapedCount (s : Str) : Nat :=
  s.countP (fun c => c = ',' ∨ c = '=')

/-! ## Runs of `retryOperation` on a scripted operation -/

/-- A step of a run of `retryOperation`: an invocation of the operation, or a `delay`. -/
inductive Step
  | call
  | sleep (ms : Nat)
  deriving DecidableEq, Repr

/-- An operation whose `i`-th invocation (counted from 0) returns `outcome i`. Its state is
the log of the steps made so far; every invocation is logged. -/
def scriptedOperation (outcome : Nat → Bool) (log : List Step) : Bool × List Step :=
  (outcome (log.count Step.call), log ++ [Step.call])

/-- The call `delay(ms)`, logged. -/
def logDelay (ms : Nat) (log : List Step) : List Step :=
  log ++ [Step.sleep ms]

/-- A run of `retryOperation` on the scripted operation, from an empty log: the returned
value (`none` when the loop was still running when the fuel ran out) and the log. -/
def retryRun (config : Config) (outcome : Nat → Bool) (fuel : Nat) : Option Bool × List Step :=
  retryOperation config logDelay (scriptedOperation outcome) fuel []

/-- The client `c2` is the client `c1` except, at most, for its error slot. -/
def Client.eqUpToError (c1 c2 : Client) : Prop :=
  c2 = { c1 with lastError := c2.lastError, lastErrorMessage := c2.lastErrorMessage }

/-- Every POST is answered with a status outside `200 .. 299`. -/
def World.alwaysFails (world : World) : Prop :=
  ∀ k, ¬ (200 ≤ (world.server k).code ∧ (world.server k).code < 300)

/-! ## Reachable clients -/

/-- The counters are within the arrays: `tagCount ≤ MAX_TAGS` and
`batchCount ≤ MAX_BATCH_SIZE`, the arrays having their declared sizes. -/
def Client.InBounds (c : Client) : Prop :=
  c.WellFormed ∧ c.tagCount ≤ MAX_TAGS ∧ c.batchCount ≤ MAX_BATCH_SIZE

/-- The clients a program can see: the freshly constructed one, and what any public
operation, with any arguments, in any world, leaves behind. For an operation that sends,
the client at the moment the fuel runs out is included as well. -/
inductive Reachable : Client → Prop
  | init (token org bucket : Str) : Reachable (construct token org bucket)
  | stepSetConfig {c : Client} (config : Config) : Reachable c → Reachable (setConfig c config)
  | stepClearError {c : Client} : Reachable c → Reachable (clearError c)
  | stepSetTimeUnit {c : Client} (unit : TimeUnit) : Reachable c → Reachable (setTimeUnit c unit)
  | stepAddTag {c : Client} (key value : Str) : Reachable c → Reachable (addTag c key value).2
  | stepClearTags {c : Client} : Reachable c → Reachable (clearTags c)
  | stepSetDevice {c : Client} (device : Nested.Device) :
      Reachable c → Reachable (setDevice c device)
  | stepBeginBatch {c : Client} : Reachable c → Reachable (beginBatch c)
  | stepEndBatch {c : Client} (fuel : Nat) (world : World) :
      Reachable c → Reachable (endBatch fuel c world).client
  | stepClearBatch {c : Client} : Reachable c → Reachable (clearBatch c)
  | stepFlushBatch {c : Client} (fuel : Nat) (world : World) :
      Reachable c → Reachable (flushBatch fuel c world).client
  | stepWritePoint {c : Client} (w fuel : Nat) (world : World) (call : PointCall) :
      Reachable c → Reachable (call.run w fuel c world).client
  | stepWriteMeasurement {c : Client} (w fuel : Nat) (world : World) (millis : Nat)
      (measurement : Nested.Measurement) :
      Reachable c → Reachable (writeMeasurement w fuel c world millis measurement).client
  | stepWriteMeasurements {c : Client} (w fuel : Nat) (world : World) (millis : Nat → Nat)
      (measurements : List Nested.Measurement) :
      Reachable c → Reachable (writeMeasurements w fuel c world millis measurements).client

/-- What `escapeString` does to one character: a comma and an equals sign get a backslash
in front, every other character (the space included) is kept as it is. -/
def escapeChar (c : Char) : Str :=
  if c = ',' ∨ c = '=' then ['\\', c] else [c]

/-- A decoder for the output of `escapeString`. It is not part of the source: it is the left
inverse used to show that `escapeString` is injective. A backslash followed by a comma or an
equals sign is read as that character; every other character is read as itself. -/
def unescape : Str → Str
  | [] => []
  | [x] => [x]
  | x :: c :: rest =>
    if x = '\\' ∧ (c = ',' ∨ c = '=') then c :: unescape rest else x :: unescape (c :: rest)

/-- The event is an HTTP POST. -/
def Event.isPost : Event → Bool
  | Event.post _ _ _ _ => true
  | Event.delay _ => false

/-- The outer-class `Measurement` with the name, field, value and time of a nested-class
measurement: the value `Measurement::isValid` is asked about on the write path. -/
def Nested.Measurement.toMeasurement (m : Nested.Measurement) : LightweightIoT.Measurement :=
  LightweightIoT.Measurement.mk m.name m.field m.value m.time

/-! ## Definitions that follow the wording of the specification -/

/-- The escaping the specification describes, in its words: "every occurrence of space,
comma, and `=` ... is prefixed with a backslash". -/
def specEscape (s : Str) : Str :=
  s.flatMap (fun c => if c = ' ' ∨ c = ',' ∨ c = '=' then ['\\', c] else [c])

/-- The steps of a run with `j` invocations as the specification describes them, in its
words: "Between attempts (not before the first), sleep for `retryDelay`". -/
def expectedSteps (d : Nat) : Nat → List Step
  | 0 => []
  | 1 => [Step.call]
  | j + 2 => expectedSteps d (j + 1) ++ [Step.sleep d, Step.call]

/-- The payload the specification describes, in its words: "joins all buffered lines with
a single newline character into one payload". -/
def joinLines : List Str → Str
  | [] => []
  | [l] => l
  | l :: l2 :: rest => l ++ '\n' :: joinLines (l2 :: rest)

/-! ## `escapeString`: the loops computed -/

theorem findIn_none {ch : Char} : ∀ {l : Str}, findIn ch l = none → ch ∉ l
  | [], _ => by simp
  | c :: cs, h => by
    unfold findIn at h
    split at h
    · simp at h
    · rename_i hc
      have h2 : findIn ch cs = none := by simpa using h
      have ih := findIn_none h2
      simp only [List.mem_cons, not_or]
      exact ⟨fun e => hc e.symm, ih⟩

theorem findIn_some {ch : Char} : ∀ {l : Str} {i : Nat}, findIn ch l = some i →
    ∃ pre post, l = pre ++ ch :: post ∧ pre.length = i ∧ ch ∉ pre
  | [], _, h => by simp [findIn] at h
  | c :: cs, i, h => by
    unfold findIn at h
    split at h
    · rename_i hc
      have hi : i = 0 := by simpa using h.symm
      exact ⟨[], cs, by simp [hc], by simp [hi], by simp⟩
    · rename_i hc
      cases hj : findIn ch cs with
      | none => simp [hj] at h
      | some j =>
        have hi : j + 1 = i := by simpa [hj] using h
        obtain ⟨pre, post, e, hl, hn⟩ := findIn_some hj
        refine ⟨c :: pre, post, by simp [e], by simp [hl, hi], ?_⟩
        simp only [List.mem_cons, not_or]
        exact ⟨fun e2 => hc e2.symm, hn⟩

theorem find_append_length (done rest : Str) (ch : Char) :
    find (done ++ rest) ch done.length = (findIn ch rest).map (· + done.length) := by
  simp [find]

theorem replace_at (done pre post rep : Str) (ch : Char) :
    replace (done ++ (pre ++ ch :: post)) (pre.length + done.length) 1 rep
      = (done ++ pre ++ rep) ++ post := by
  have h1 : done ++ (pre ++ ch :: post) = (done ++ pre) ++ ch :: post := by simp
  have h2 : pre.length + done.length = (done ++ pre).length := by simp [Nat.add_comm]
  unfold replace
  rw [h1, h2, List.take_left]
  have h3 : (done ++ pre).length + 1 = (done ++ pre ++ [ch]).length := by
    simp only [List.length_append, List.length_cons, List.length_nil]
  have h4 : (done ++ pre) ++ ch :: post = (done ++ pre ++ [ch]) ++ post := by simp
  rw [h3, h4, List.drop_left]

theorem replaceAll_of_not_mem {ch : Char} (rep : Str) :
    ∀ {l : Str}, ch ∉ l → replaceAll ch rep l = l
  | [], _ => rfl
  | c :: cs, h => by
    simp only [List.mem_cons, not_or] at h
    have ih := replaceAll_of_not_mem rep h.2
    have hc : ¬ c = ch := fun e => h.1 e.symm
    unfold replaceAll at ih ⊢
    simp [List.flatMap_cons, hc, ih]

theorem replaceAll_append (ch : Char) (rep l1 l2 : Str) :
    replaceAll ch rep (l1 ++ l2) = replaceAll ch rep l1 ++ replaceAll ch rep l2 := by
  simp [replaceAll]

/-- A pass whose replacement is a backslash-like character followed by the searched
character, started at the end of `done`, leaves `done` alone and replaces every
occurrence in `rest`, provided the fuel exceeds the length of `rest`. -/
theorem replaceLoop_two (ch b : Char) : ∀ (fuel : Nat) (done rest : Str),
    rest.length < fuel →
    replaceLoop ch [b, ch] fuel (done ++ rest) done.length = done ++ replaceAll ch [b, ch] rest
  | 0, _, _, h => by omega
  | fuel + 1, done, rest, h => by
    unfold replaceLoop
    rw [find_append_length]
    cases hf : findIn ch rest with
    | none =>
      simp only [Option.map_none']
      rw [replaceAll_of_not_mem _ (findIn_none hf)]
    | some i =>
      obtain ⟨pre, post, e, hl, hn⟩ := findIn_some hf
      subst e
      subst hl
      simp only [Option.map_some']
      rw [replace_at]
      have hpos : pre.length + done.length + 2 = (done ++ pre ++ [b, ch]).length := by
        simp; omega
      rw [hpos]
      have hlen : post.length < fuel := by
        simp only [List.length_append, List.length_cons] at h
        omega
      rw [replaceLoop_two ch b fuel (done ++ pre ++ [b, ch]) post hlen]
      rw [replaceAll_append, replaceAll_of_not_mem _ hn]
      simp [replaceAll, List.flatMap_cons]

/-- The fuel `str.length + 1` that `escapeString` gives a pass is enough: any larger fuel
yields the same string. -/
theorem replaceLoop_fuel (ch b : Char) (str : Str) (fuel : Nat) (h : str.length < fuel) :
    replaceLoop ch [b, ch] fuel str 0 = replaceLoop ch [b, ch] (str.length + 1) str 0 := by
  have h1 := replaceLoop_two ch b fuel [] str h
  have h2 := replaceLoop_two ch b (str.length + 1) [] str (by omega)
  simp only [List.nil_append, List.length_nil] at h1 h2
  rw [h1, h2]

/-- A pass whose replacement is the searched character itself changes nothing, whatever
the fuel and the start position. -/
theorem replaceLoop_same (ch : Char) : ∀ (fuel : Nat) (str : Str) (pos : Nat),
    replaceLoop ch [ch] fuel str pos = str
  | 0, _, _ => rfl
  | fuel + 1, str, pos => by
    unfold replaceLoop
    cases hf : find str ch pos with
    | none => rfl
    | some p =>
      simp only
      have hrep : replace str p 1 [ch] = str := by
        unfold find at hf
        cases hg : findIn ch (str.drop pos) with
        | none => simp [hg] at hf
        | some i =>
          have hp : i + pos = p := by simpa [hg] using hf
          obtain ⟨pre, post, e, hl, _⟩ := findIn_some hg
          have hs : str = str.take pos ++ (pre ++ ch :: post) := by
            rw [← e, List.take_append_drop]
          have hposle : pos ≤ str.length := by
            by_contra hcon
            have : str.drop pos = [] := List.drop_eq_nil_of_le (by omega)
            rw [this] at e
            simp at e
          have htl : (str.take pos).length = pos := by
            simp [List.length_take, hposle]
          have key := replace_at (str.take pos) pre post [ch] ch
          rw [htl, hl, hp, ← hs] at key
          rw [key]
          conv_rhs => rw [hs]
          simp
      rw [hrep]
      exact replaceLoop_same ch fuel str (p + 2)

/-- The `std::string` branch and the `ARDUINO` branch of `escapeString` compute the same
string. -/
theorem escapeString_eq_arduino (s : Str) : escapeString s = escapeStringArduino s := by
  unfold escapeString escapeStringArduino
  simp only [spaceReplacement, commaReplacement, equalsReplacement]
  rw [replaceLoop_same]
  have hsp : replaceAll ' ' [' '] s = s := by
    unfold replaceAll
    induction s with
    | nil => rfl
    | cons c cs ih =>
      rw [List.flatMap_cons, ih]
      by_cases hc : c = ' ' <;> simp [hc]
  rw [hsp]
  have h1 := replaceLoop_two ',' '\\' (s.length + 1) [] s (by omega)
  simp only [List.nil_append, List.length_nil] at h1
  rw [h1]
  have h2 := replaceLoop_two '=' '\\' ((replaceAll ',' ['\\', ','] s).length + 1) []
    (replaceAll ',' ['\\', ','] s) (by omega)
  simp only [List.nil_append, List.length_nil] at h2
  rw [h2]

/-- Closed form of `escapeString`: character by character, `escapeChar`. -/
theorem escapeString_eq (s : Str) : escapeString s = s.flatMap escapeChar := by
  rw [escapeString_eq_arduino]
  unfold escapeStringArduino
  simp only [spaceReplacement, commaReplacement, equalsReplacement]
  induction s with
  | nil => rfl
  | cons c cs ih =>
    have hcons : ∀ (ch : Char) (rep : Str) (x : Char) (xs : Str),
        replaceAll ch rep (x :: xs) = (if x = ch then rep else [x]) ++ replaceAll ch rep xs := by
      intro ch rep x xs
      simp [replaceAll, List.flatMap_cons]
    rw [hcons, replaceAll_append, replaceAll_append, ih, List.flatMap_cons]
    congr 1
    unfold escapeChar
    by_cases h1 : c = ' '
    · subst h1; decide
    · by_cases h2 : c = ','
      · subst h2; decide
      · by_cases h3 : c = '='
        · subst h3; decide
        · simp [h1, h2, h3, replaceAll, List.flatMap_cons]

theorem length_flatMap_escapeChar (s : Str) :
    (s.flatMap escapeChar).length = s.length + escapedCount s := by
  induction s with
  | nil => rfl
  | cons c cs ih =>
    rw [List.flatMap_cons, List.length_append, ih]
    unfold escapedCount escapeChar
    by_cases h : c = ',' ∨ c = '='
    · simp [List.countP_cons, h]; omega
    · simp [List.countP_cons, h]; omega

theorem escapedCount_flatMap_escapeChar (s : Str) :
    escapedCount (s.flatMap escapeChar) = escapedCount s := by
  induction s with
  | nil => rfl
  | cons c cs ih =>
    unfold escapedCount at ih ⊢
    rw [List.flatMap_cons, List.countP_append, ih]
    unfold escapeChar
    by_cases h : c = ',' ∨ c = '='
    · simp [List.countP_cons, h]; omega
    · simp [List.countP_cons, h]

/-- Escaping is not idempotent on a string holding a comma or an equals sign: the second
pass makes the string longer again. -/
theorem escapeString_twice_ne (s : Str) (h : 0 < escapedCount s) :
    escapeString (escapeString s) ≠ escapeString s := by
  intro e
  have h1 := congrArg List.length e
  rw [escapeString_eq (escapeString s), length_flatMap_escapeChar, escapeString_eq s,
    escapedCount_flatMap_escapeChar] at h1
  omega

/-! ## The encoder: tag segments -/

theorem foldl_tagSegments (c : Client) : ∀ (idx : List Nat) (line : Str),
    idx.foldl
      (fun line i =>
        line ++ ([','] ++ escapeString (c.tags.getD i default).key ++ ['=']
          ++ escapeString (c.tags.getD i default).value))
      line
    = line ++ (idx.map (fun i => c.tags.getD i default)).flatMap tagSegment
  | [], line => by simp
  | i :: rest, line => by
    rw [List.foldl_cons, foldl_tagSegments c rest]
    simp [List.flatMap_cons, tagSegment]

/-- The tag loop appends one segment per tag in use, in index order. -/
theorem appendTags_eq (c : Client) (line : Str) :
    appendTags c line = line ++ c.tagSet.flatMap tagSegment := by
  unfold appendTags Client.tagSet
  exact foldl_tagSegments c _ line

/-! ## The tag set -/

theorem getD_set_self {α : Type} (l : List α) (n : Nat) (a d : α) (h : n < l.length) :
    (l.set n a).getD n d = a := by
  simp [List.getD_eq_getElem?_getD, List.getElem?_set, h]

theorem getD_set_of_ne {α : Type} (l : List α) (n i : Nat) (a d : α) (h : i ≠ n) :
    (l.set n a).getD i d = l.getD i d := by
  have h2 : n ≠ i := fun e => h e.symm
  simp [List.getD_eq_getElem?_getD, List.getElem?_set, h2]

theorem map_range_set {α : Type} (l : List α) (n : Nat) (a d : α) :
    (List.range n).map (fun i => (l.set n a).getD i d)
      = (List.range n).map (fun i => l.getD i d) := by
  apply List.map_congr_left
  intro i hi
  have hlt : i < n := List.mem_range.mp hi
  exact getD_set_of_ne l n i a d (by omega)

theorem addTag_wellFormed (c : Client) (k v : Str) (hwf : c.WellFormed) :
    (addTag c k v).2.WellFormed := by
  unfold addTag
  split
  · exact hwf
  · exact ⟨by simpa using hwf.1, hwf.2⟩

theorem tagSet_addTag (c : Client) (k v : Str) (hwf : c.WellFormed)
    (hlt : c.tagCount < MAX_TAGS) :
    (addTag c k v).2.tagSet = c.tagSet ++ [{ key := k, value := v }] := by
  have hlen : c.tagCount < c.tags.length := by rw [hwf.1]; exact hlt
  have hn : ¬ c.tagCount ≥ MAX_TAGS := by omega
  unfold addTag
  rw [if_neg hn]
  unfold Client.tagSet
  simp only
  rw [List.range_succ, List.map_append, map_range_set, List.map_singleton,
    getD_set_self _ _ _ _ hlen]

theorem tagCount_addTag (c : Client) (k v : Str) (hlt : c.tagCount < MAX_TAGS) :
    (addTag c k v).2.tagCount = c.tagCount + 1 := by
  have hn : ¬ c.tagCount ≥ MAX_TAGS := by omega
  unfold addTag
  rw [if_neg hn]

/-- Adding tags one after the other to a set with room for all of them appends them in
call order. -/
theorem tagSet_addTags : ∀ (kvs : List Tag) (c : Client), c.WellFormed →
    c.tagCount + kvs.length ≤ MAX_TAGS →
    (addTags c kvs).tagSet = c.tagSet ++ kvs
  | [], c, _, _ => by simp [addTags]
  | t :: rest, c, hwf, hle => by
    have hlt : c.tagCount < MAX_TAGS := by
      simp only [List.length_cons] at hle
      omega
    unfold addTags
    rw [tagSet_addTags rest _ (addTag_wellFormed c t.key t.value hwf)
      (by rw [tagCount_addTag c _ _ hlt]; simp only [List.length_cons] at hle; omega)]
    rw [tagSet_addTag c _ _ hwf hlt]
    simp

theorem tagSet_clearTags (c : Client) : (clearTags c).tagSet = [] := by
  simp [clearTags, Client.tagSet]

/-! ## The batch buffer -/

theorem batch_setError (c : Client) (code : ErrorCode) (msg : Str) :
    (setError c code msg).batch = c.batch := rfl

/-- What `addToBatch` returns and leaves behind, on a client whose batch array has its
declared size. -/
theorem addToBatch_spec (c : Client) (line : Str) (hwf : c.WellFormed) :
    (addToBatch c line).1 = decide (c.batchCount < MAX_BATCH_SIZE) ∧
      (addToBatch c line).2.WellFormed ∧
      (addToBatch c line).2.batchMode = c.batchMode ∧
      (addToBatch c line).2.tags = c.tags ∧
      (addToBatch c line).2.tagCount = c.tagCount ∧
      (addToBatch c line).2.batchCount
        = (if c.batchCount < MAX_BATCH_SIZE then c.batchCount + 1 else c.batchCount) ∧
      (addToBatch c line).2.batch
        = (if c.batchCount < MAX_BATCH_SIZE then c.batch ++ [line] else c.batch) := by
  by_cases h : c.batchCount < MAX_BATCH_SIZE
  · have hn : ¬ c.batchCount ≥ MAX_BATCH_SIZE := by omega
    have hlen : c.batchCount < c.batchBuffer.length := by rw [hwf.2]; exact h
    unfold addToBatch
    rw [if_neg hn, if_pos h, if_pos h]
    refine ⟨by simp [h], ⟨hwf.1, by simpa using hwf.2⟩, rfl, rfl, rfl, rfl, ?_⟩
    unfold Client.batch
    simp only
    rw [List.range_succ, List.map_append, map_range_set, List.map_singleton,
      getD_set_self _ _ _ _ hlen]
  · have hn : c.batchCount ≥ MAX_BATCH_SIZE := by omega
    unfold addToBatch
    rw [if_pos hn, if_neg h, if_neg h]
    exact ⟨by simp [h], hwf, rfl, rfl, rfl, rfl, rfl⟩

theorem line_congr (w : Nat) (c1 c2 : Client) (call : PointCall) (ht : c1.tags = c2.tags)
    (hc : c1.tagCount = c2.tagCount) : call.line w c1 = call.line w c2 := by
  cases call <;>
    simp [PointCall.line, formatLineProtocolString, formatLineProtocolInt,
      formatLineProtocolFloat, appendTags, ht, hc]

/-- One `writePoint` call in batching mode: it returns whether the batch had room, does
not touch the world, and appends its line exactly when there was room. -/
theorem run_batching (w fuel : Nat) (c : Client) (world : World) (call : PointCall)
    (hwf : c.WellFormed) (hmode : c.batchMode = true) :
    (call.run w fuel c world).ret = some (decide (c.batchCount < MAX_BATCH_SIZE)) ∧
      (call.run w fuel c world).world = world ∧
      (call.run w fuel c world).client.WellFormed ∧
      (call.run w fuel c world).client.batchMode = true ∧
      (call.run w fuel c world).client.tags = c.tags ∧
      (call.run w fuel c world).client.tagCount = c.tagCount ∧
      (call.run w fuel c world).client.batchCount
        = (if c.batchCount < MAX_BATCH_SIZE then c.batchCount + 1 else c.batchCount) ∧
      (call.run w fuel c world).client.batch
        = (if c.batchCount < MAX_BATCH_SIZE then c.batch ++ [call.line w c] else c.batch) := by
  cases call with
  | str millis m f v =>
    obtain ⟨h1, h2, h3, h4, h5, h6, h7⟩ :=
      addToBatch_spec c (formatLineProtocolString w c millis m f v) hwf
    simp only [PointCall.run, writePointString, hmode, if_true, PointCall.line]
    exact ⟨by rw [h1], trivial, h2, by rw [h3, hmode], h4, h5, h6, h7⟩
  | int millis m f v =>
    obtain ⟨h1, h2, h3, h4, h5, h6, h7⟩ :=
      addToBatch_spec c (formatLineProtocolInt w c millis m f v) hwf
    simp only [PointCall.run, writePointInt, hmode, if_true, PointCall.line]
    exact ⟨by rw [h1], trivial, h2, by rw [h3, hmode], h4, h5, h6, h7⟩
  | float millis m f v =>
    have hwf0 : (clearError c).WellFormed := hwf
    have hmode0 : (clearError c).batchMode = true := hmode
    have hline : formatLineProtocolFloat w (clearError c) millis m f v
        = formatLineProtocolFloat w c millis m f v := rfl
    obtain ⟨h1, h2, h3, h4, h5, h6, h7⟩ :=
      addToBatch_spec (clearError c) (formatLineProtocolFloat w c millis m f v) hwf0
    have hcnt : (clearError c).batchCount = c.batchCount := rfl
    have hbatch : (clearError c).batch = c.batch := rfl
    rw [hcnt] at h1 h6 h7
    rw [hbatch] at h7
    simp only [PointCall.run, writePointFloat, hmode0, if_true, PointCall.line, hline]
    by_cases hroom : c.batchCount < MAX_BATCH_SIZE
    · have hb : (addToBatch (clearError c) (formatLineProtocolFloat w c millis m f v)).1
          = true := by rw [h1]; simp [hroom]
      simp only [hb, Bool.not_true, Bool.false_eq_true, if_false]
      exact ⟨by simp [hroom], trivial, h2, by rw [h3]; exact hmode, h4, h5, h6, h7⟩
    · have hb : (addToBatch (clearError c) (formatLineProtocolFloat w c millis m f v)).1
          = false := by rw [h1]; simp [hroom]
      simp only [hb, Bool.not_false, if_true]
      exact ⟨by simp [hroom], trivial, h2, by
        show (addToBatch (clearError c) _).2.batchMode = true
        rw [h3]; exact hmode, h4, h5, h6, by
        rw [batch_setError]; exact h7⟩

/-- Consecutive `writePoint` calls in batching mode, started with `c1.batchCount` lines
buffered; `c` is any client with the same tags as `c1`. -/
theorem writePoints_from (w fuel : Nat) (c : Client) (world : World) :
    ∀ (calls : List PointCall) (c1 : Client), c1.WellFormed → c1.batchMode = true →
      c1.tags = c.tags → c1.tagCount = c.tagCount →
      (writePoints w fuel calls c1 world).1
          = (List.range calls.length).map
              (fun i => some (decide (c1.batchCount + i < MAX_BATCH_SIZE))) ∧
        (writePoints w fuel calls c1 world).2.1.batchCount
          = (if c1.batchCount + calls.length ≤ MAX_BATCH_SIZE then c1.batchCount + calls.length
              else max c1.batchCount MAX_BATCH_SIZE) ∧
        (writePoints w fuel calls c1 world).2.1.batch
          = c1.batch ++ (calls.take (MAX_BATCH_SIZE - c1.batchCount)).map (PointCall.line w c) ∧
        (writePoints w fuel calls c1 world).2.2 = world
  | [], c1, _, _, _, _ => by
    refine ⟨rfl, ?_, by simp [writePoints], rfl⟩
    simp only [writePoints, List.length_nil, Nat.add_zero]
    split
    · rfl
    · omega
  | call :: rest, c1, hwf, hmode, ht, hc => by
    obtain ⟨h1, h2, h3, h4, h5, h6, h7, h8⟩ := run_batching w fuel c1 world call hwf hmode
    have ih := writePoints_from w fuel c world rest (call.run w fuel c1 world).client h3 h4
      (by rw [h5, ht]) (by rw [h6, hc])
    obtain ⟨i1, i2, i3, i4⟩ := ih
    have hl : call.line w c1 = call.line w c := line_congr w c1 c call ht hc
    simp only [writePoints, h1, h2]
    rw [i1, i2, i3, i4, h7, h8, hl]
    by_cases hroom : c1.batchCount < MAX_BATCH_SIZE
    · rw [if_pos hroom, if_pos hroom]
      refine ⟨?_, ?_, ?_, rfl⟩
      · rw [List.length_cons, List.range_succ_eq_map, List.map_cons, List.map_map]
        refine List.cons_eq_cons.mpr ⟨rfl, List.map_congr_left (fun i _ => ?_)⟩
        have e : c1.batchCount + 1 + i = c1.batchCount + (i + 1) := by omega
        simp only [Function.comp, e]
      · simp only [List.length_cons]
        split <;> split <;> omega
      · have e : MAX_BATCH_SIZE - c1.batchCount = (MAX_BATCH_SIZE - (c1.batchCount + 1)) + 1 := by
          omega
        rw [e, List.take_succ_cons, List.map_cons]
        simp
    · rw [if_neg hroom, if_neg hroom]
      have e : MAX_BATCH_SIZE - c1.batchCount = 0 := by omega
      refine ⟨?_, ?_, ?_, rfl⟩
      · rw [List.length_cons, List.range_succ_eq_map, List.map_cons, List.map_map]
        refine List.cons_eq_cons.mpr ⟨rfl, List.map_congr_left (fun i _ => ?_)⟩
        have a1 : ¬ c1.batchCount + i < MAX_BATCH_SIZE := by omega
        have a2 : ¬ c1.batchCount + (i + 1) < MAX_BATCH_SIZE := by omega
        simp [a1, a2]
      · simp only [List.length_cons]
        split <;> split <;> omega
      · rw [e]
        simp

/-! ## The payload of a flush -/

theorem joinLines_cons (l : Str) : ∀ (ls : List Str),
    joinLines (l :: ls) = l ++ ls.flatMap (fun x => '\n' :: x)
  | [] => by simp [joinLines]
  | l2 :: rest => by
    rw [joinLines, joinLines_cons l2 rest]
    simp [List.flatMap_cons]

theorem length_joinLines : ∀ (ls : List Str), ls ≠ [] →
    (joinLines ls).length = (ls.map List.length).sum + (ls.length - 1)
  | [], h => absurd rfl h
  | [l], _ => by simp [joinLines]
  | l :: l2 :: rest, _ => by
    rw [joinLines, List.length_append, List.length_cons,
      length_joinLines (l2 :: rest) (by simp)]
    simp only [List.map_cons, List.sum_cons, List.length_cons]
    omega

theorem foldl_batchData (buf : List Str) : ∀ (idx : List Nat) (data : Str),
    (∀ i ∈ idx, 0 < i) →
    idx.foldl
      (fun data i =>
        let data := if 0 < i then data ++ ['\n'] else data
        data ++ buf.getD i [])
      data
    = data ++ (idx.map (fun i => buf.getD i [])).flatMap (fun x => '\n' :: x)
  | [], data, _ => by simp
  | i :: rest, data, h => by
    have hi : 0 < i := h i (by simp)
    rw [List.foldl_cons, foldl_batchData buf rest _ (fun j hj => h j (by simp [hj]))]
    simp [hi, List.flatMap_cons]

/-- The loop of `flushBatch` builds the buffered lines joined by single newlines. -/
theorem batchData_eq (c : Client) : batchData c = joinLines c.batch := by
  unfold batchData Client.batch
  cases c.batchCount with
  | zero => rfl
  | succ n =>
    rw [List.range_succ_eq_map, List.foldl_cons, List.map_cons, joinLines_cons]
    rw [foldl_batchData c.batchBuffer _ _ (by simp)]
    simp

/-! ## The events of a send -/

theorem postOnce_spec (p : Str) (s : Client × World) :
    (postOnce p s).2.2.trace
        = s.2.trace ++ [Event.post s.1.url s.1.token s.1.config.timeout p] ∧
      (postOnce p s).2.1.url = s.1.url ∧
      (postOnce p s).2.1.token = s.1.token ∧
      (postOnce p s).2.1.config = s.1.config := by
  unfold postOnce
  simp only
  split <;> exact ⟨rfl, rfl, rfl, rfl⟩

/-- Whatever the fuel and the server, the retry loop of a send adds to the trace only POSTs
of the payload `p` (to the client's url, with its token and timeout) and delays of
`retryDelay`. -/
theorem retryLoop_events (cfg : Config) (p : Str) : ∀ (fuel attempt : Nat) (s : Client × World),
    ∃ evs, (retryLoop cfg delayWorld (postOnce p) fuel attempt s).2.2.trace = s.2.trace ++ evs ∧
      ∀ e ∈ evs, e = Event.post s.1.url s.1.token s.1.config.timeout p ∨
        e = Event.delay cfg.retryDelay
  | 0, _, s => ⟨[], by simp [retryLoop], by simp⟩
  | fuel + 1, attempt, s => by
    unfold retryLoop
    by_cases hle : attempt ≤ cfg.maxRetries.val
    · rw [if_pos hle]
      obtain ⟨d, hd1, hd2, hd3⟩ : ∃ d,
          (if 0 < attempt then delayWorld cfg.retryDelay s else s).2.trace = s.2.trace ++ d ∧
          (∀ e ∈ d, e = Event.delay cfg.retryDelay) ∧
          (if 0 < attempt then delayWorld cfg.retryDelay s else s).1 = s.1 := by
        by_cases h0 : 0 < attempt
        · exact ⟨[Event.delay cfg.retryDelay], by simp [h0, delayWorld], by simp,
            by simp [h0, delayWorld]⟩
        · exact ⟨[], by simp [h0], by simp, by simp [h0]⟩
      simp only
      generalize (if 0 < attempt then delayWorld cfg.retryDelay s else s) = s1 at hd1 hd3 ⊢
      obtain ⟨hp1, hp2, hp3, hp4⟩ := postOnce_spec p s1
      rw [hd3] at hp1 hp2 hp3 hp4
      rw [hd1] at hp1
      split
      · rename_i s2 heq
        rw [heq] at hp1
        refine ⟨d ++ [Event.post s.1.url s.1.token s.1.config.timeout p], ?_, ?_⟩
        · simpa using hp1
        · intro e he
          rcases List.mem_append.mp he with h | h
          · exact Or.inr (hd2 e h)
          · exact Or.inl (by simpa using h)
      · rename_i s2 heq
        rw [heq] at hp1 hp2 hp3 hp4
        simp only at hp1 hp2 hp3 hp4
        obtain ⟨evs, he1, he2⟩ := retryLoop_events cfg p fuel ((attempt + 1) % 256) s2
        rw [hp1] at he1
        rw [hp2, hp3, hp4] at he2
        refine ⟨d ++ [Event.post s.1.url s.1.token s.1.config.timeout p] ++ evs, ?_, ?_⟩
        · rw [he1]; simp
        · intro e he
          rcases List.mem_append.mp he with h | h
          · rcases List.mem_append.mp h with h | h
            · exact Or.inr (hd2 e h)
            · exact Or.inl (by simpa using h)
          · exact he2 e h
    · rw [if_neg hle]
      exact ⟨[], by simp, by simp⟩

/-- A send on a connected transport with fuel left starts with a POST of the payload; what
follows in the trace are POSTs of the same payload and delays of `retryDelay`. -/
theorem sendToInfluxDB_events (fuel : Nat) (c : Client) (world : World) (p : Str)
    (hconn : world.connected = true) (hfuel : 0 < fuel) :
    ∃ evs, (sendToInfluxDB fuel c world p).world.trace
        = world.trace ++ Event.post c.url c.token c.config.timeout p :: evs ∧
      ∀ e ∈ evs, e = Event.post c.url c.token c.config.timeout p ∨
        e = Event.delay c.config.retryDelay := by
  obtain ⟨f, rfl⟩ : ∃ f, fuel = f + 1 := ⟨fuel - 1, by omega⟩
  unfold sendToInfluxDB
  simp only [hconn, Bool.not_true, Bool.false_eq_true, if_false]
  unfold retryOperation retryLoop
  rw [if_pos (Nat.zero_le _)]
  simp only [Nat.lt_irrefl, if_false]
  obtain ⟨hp1, hp2, hp3, hp4⟩ := postOnce_spec p (c, world)
  simp only at hp1 hp2 hp3 hp4
  split
  · rename_i s2 heq
    rw [heq] at hp1
    exact ⟨[], by simpa using hp1, by simp⟩
  · rename_i s2 heq
    rw [heq] at hp1 hp2 hp3 hp4
    simp only at hp1 hp2 hp3 hp4
    obtain ⟨evs, he1, he2⟩ := retryLoop_events c.config p f ((0 + 1) % 256) s2
    rw [hp1] at he1
    rw [hp2, hp3, hp4] at he2
    exact ⟨evs, by rw [he1]; simp, he2⟩

theorem flushBatch_world (fuel : Nat) (c : Client) (world : World) (h : c.batchCount ≠ 0) :
    (flushBatch fuel c world).world = (sendToInfluxDB fuel c world (batchData c)).world := by
  unfold flushBatch
  rw [if_neg h]
  simp only
  split <;> rfl

/-! ## The retry loop on a scripted operation -/

theorem expectedSteps_succ (d : Nat) : ∀ (a : Nat),
    (if 0 < a then logDelay d (expectedSteps d a) else expectedSteps d a) ++ [Step.call]
      = expectedSteps d (a + 1)
  | 0 => rfl
  | a + 1 => by simp [logDelay, expectedSteps]

theorem count_call_expectedSteps (d : Nat) : ∀ (j : Nat),
    (expectedSteps d j).count Step.call = j
  | 0 => rfl
  | 1 => rfl
  | j + 2 => by
    rw [expectedSteps, List.count_append, count_call_expectedSteps d (j + 1)]
    simp [List.count_cons]

theorem count_sleep_expectedSteps (d : Nat) : ∀ (j : Nat),
    (expectedSteps d j).countP (fun s => s ≠ Step.call) = j - 1
  | 0 => rfl
  | 1 => rfl
  | j + 2 => by
    rw [expectedSteps, List.countP_append, count_sleep_expectedSteps d (j + 1)]
    simp [List.countP_cons]

/-- As long as the scripted operation fails and the retry budget is not used up, `n` more
iterations take the loop from `a` invocations to `a + n` invocations, the log being the
expected one; the counter is the number of invocations modulo 256. -/
theorem retryLoop_failing_prefix (config : Config) (outcome : Nat → Bool) :
    ∀ (n fuel a : Nat), a + n ≤ config.maxRetries.val + 1 →
      (∀ i, a ≤ i → i < a + n → outcome i = false) →
      retryLoop config logDelay (scriptedOperation outcome) (fuel + n) (a % 256)
          (expectedSteps config.retryDelay a)
        = retryLoop config logDelay (scriptedOperation outcome) fuel ((a + n) % 256)
          (expectedSteps config.retryDelay (a + n))
  | 0, _, _, _, _ => rfl
  | n + 1, fuel, a, hle, hfail => by
    have hmax : config.maxRetries.val < 256 := config.maxRetries.isLt
    have ha : a ≤ config.maxRetries.val := by omega
    have hmod : a % 256 = a := Nat.mod_eq_of_lt (by omega)
    have hout : outcome a = false := hfail a (Nat.le_refl a) (by omega)
    have ih := retryLoop_failing_prefix config outcome n fuel (a + 1) (by omega)
      (fun i h1 h2 => hfail i (by omega) (by omega))
    have e1 : fuel + (n + 1) = (fuel + n) + 1 := by omega
    have e2 : a + 1 + n = a + (n + 1) := by omega
    rw [e2] at ih
    rw [e1, hmod, ← ih]
    conv_lhs => unfold retryLoop
    rw [if_pos ha]
    simp only [scriptedOperation]
    have hcount : (if 0 < a then logDelay config.retryDelay (expectedSteps config.retryDelay a)
        else expectedSteps config.retryDelay a).count Step.call = a := by
      split
      · simp [logDelay, List.count_append, count_call_expectedSteps, List.count_cons]
      · exact count_call_expectedSteps _ a
    rw [hcount, hout, expectedSteps_succ]

/-- One iteration of the loop at `a` invocations, the scripted operation succeeding. -/
theorem retryLoop_success_step (config : Config) (outcome : Nat → Bool) (fuel a : Nat)
    (ha : a % 256 ≤ config.maxRetries.val) (hout : outcome a = true) :
    retryLoop config logDelay (scriptedOperation outcome) (fuel + 1) (a % 256)
        (expectedSteps config.retryDelay a)
      = (some true,
        (if 0 < a % 256 then logDelay config.retryDelay (expectedSteps config.retryDelay a)
          else expectedSteps config.retryDelay a) ++ [Step.call]) := by
  conv_lhs => unfold retryLoop
  rw [if_pos ha]
  simp only [scriptedOperation]
  have hcount : (if 0 < a % 256
      then logDelay config.retryDelay (expectedSteps config.retryDelay a)
      else expectedSteps config.retryDelay a).count Step.call = a := by
    split
    · simp [logDelay, List.count_append, count_call_expectedSteps, List.count_cons]
    · exact count_call_expectedSteps _ a
  rw [hcount, hout]

/-- With `maxRetries` below 255 an operation that always fails is invoked
`maxRetries + 1` times, with a delay before each invocation but the first, and the loop
returns false. -/
theorem retryRun_always_failing (config : Config) (outcome : Nat → Bool) (fuel : Nat)
    (hmax : config.maxRetries.val < 255) (hfail : ∀ i, outcome i = false)
    (hfuel : config.maxRetries.val + 2 ≤ fuel) :
    retryRun config outcome fuel
      = (some false, expectedSteps config.retryDelay (config.maxRetries.val + 1)) := by
  obtain ⟨f, rfl⟩ : ∃ f, fuel = (f + 1) + (config.maxRetries.val + 1) :=
    ⟨fuel - (config.maxRetries.val + 2), by omega⟩
  have h := retryLoop_failing_prefix config outcome (config.maxRetries.val + 1) (f + 1) 0
    (by omega) (fun i _ _ => hfail i)
  simp only [Nat.zero_add, Nat.zero_mod] at h
  unfold retryRun retryOperation
  have e0 : expectedSteps config.retryDelay 0 = [] := rfl
  rw [e0] at h
  rw [h, Nat.mod_eq_of_lt (by omega)]
  unfold retryLoop
  rw [if_neg (by omega)]

/-- With `maxRetries = 255` and an operation that always fails the loop condition never
becomes false: every unit of fuel is spent on one more invocation. -/
theorem retryLoop_wraps (config : Config) (outcome : Nat → Bool)
    (hmax : config.maxRetries.val = 255) (hfail : ∀ i, outcome i = false) :
    ∀ (fuel a : Nat) (log : List Step), a < 256 →
      (retryLoop config logDelay (scriptedOperation outcome) fuel a log).1 = none ∧
        (retryLoop config logDelay (scriptedOperation outcome) fuel a log).2.count Step.call
          = log.count Step.call + fuel
  | 0, _, _, _ => ⟨rfl, rfl⟩
  | fuel + 1, a, log, ha => by
    unfold retryLoop
    rw [if_pos (by omega)]
    simp only [scriptedOperation, hfail]
    obtain ⟨h1, h2⟩ := retryLoop_wraps config outcome hmax hfail fuel ((a + 1) % 256)
      ((if 0 < a then logDelay config.retryDelay log else log) ++ [Step.call])
      (Nat.mod_lt _ (by omega))
    refine ⟨h1, ?_⟩
    rw [h2]
    split
    · simp [logDelay, List.count_append, List.count_cons]; omega
    · simp [List.count_append, List.count_cons]; omega

/-- With `maxRetries` below 255, the log of every run, finished or not, is the expected
one for the number of invocations made: a delay before each invocation but the first. -/
theorem retryLoop_steps (config : Config) (outcome : Nat → Bool)
    (hmax : config.maxRetries.val < 255) :
    ∀ (fuel a : Nat), a ≤ config.maxRetries.val + 1 →
      ∃ j, (retryLoop config logDelay (scriptedOperation outcome) fuel a
          (expectedSteps config.retryDelay a)).2 = expectedSteps config.retryDelay j
  | 0, a, _ => ⟨a, rfl⟩
  | fuel + 1, a, ha => by
    unfold retryLoop
    by_cases hle : a ≤ config.maxRetries.val
    · rw [if_pos hle]
      simp only [scriptedOperation]
      rw [expectedSteps_succ]
      split
      · rename_i s2 heq
        refine ⟨a + 1, ?_⟩
        simp only [Prod.mk.injEq] at heq
        exact heq.2.symm
      · rename_i s2 heq
        simp only [Prod.mk.injEq] at heq
        rw [← heq.2, Nat.mod_eq_of_lt (by omega)]
        exact retryLoop_steps config outcome hmax fuel (a + 1) (by omega)
    · rw [if_neg hle]
      exact ⟨a, rfl⟩

/-! ## The retry loop on any operation -/

/-- A property of the state kept by the delay and by the operation is kept by the loop. -/
theorem retryLoop_invariant {σ : Type} (config : Config) (delay : Nat → σ → σ)
    (operation : σ → Bool × σ) (P : σ → Prop) (hd : ∀ ms s, P s → P (delay ms s))
    (ho : ∀ s, P s → P (operation s).2) :
    ∀ (fuel attempt : Nat) (s : σ), P s → P (retryLoop config delay operation fuel attempt s).2
  | 0, _, _, h => h
  | fuel + 1, attempt, s, h => by
    unfold retryLoop
    split
    · have h1 : P (if 0 < attempt then delay config.retryDelay s else s) := by
        split
        · exact hd _ _ h
        · exact h
      have h2 := ho _ h1
      simp only
      split
      · rename_i s2 heq
        rw [heq] at h2
        exact h2
      · rename_i s2 heq
        rw [heq] at h2
        exact retryLoop_invariant config delay operation P hd ho fuel _ s2 h2
    · exact h

/-- With `maxRetries` below 255 the loop returns, given `maxRetries + 2` units of fuel. -/
theorem retryLoop_returns {σ : Type} (config : Config) (delay : Nat → σ → σ)
    (operation : σ → Bool × σ) (hmax : config.maxRetries.val < 255) :
    ∀ (fuel attempt : Nat) (s : σ), attempt ≤ config.maxRetries.val + 1 →
      config.maxRetries.val + 2 ≤ fuel + attempt →
      ∃ b, (retryLoop config delay operation fuel attempt s).1 = some b
  | 0, attempt, _, h1, h2 => by omega
  | fuel + 1, attempt, s, h1, h2 => by
    unfold retryLoop
    split
    · simp only
      split
      · exact ⟨true, rfl⟩
      · rename_i s2 heq
        rw [Nat.mod_eq_of_lt (by omega)]
        exact retryLoop_returns config delay operation hmax fuel (attempt + 1) s2 (by omega)
          (by omega)
    · exact ⟨false, rfl⟩

/-- While the operation fails, the loop does not return true. -/
theorem retryLoop_not_true {σ : Type} (config : Config) (delay : Nat → σ → σ)
    (operation : σ → Bool × σ) (P : σ → Prop) (hd : ∀ ms s, P s → P (delay ms s))
    (ho : ∀ s, P s → P (operation s).2) (hf : ∀ s, P s → (operation s).1 = false) :
    ∀ (fuel attempt : Nat) (s : σ), P s →
      (retryLoop config delay operation fuel attempt s).1 ≠ some true
  | 0, _, _, _ => by simp [retryLoop]
  | fuel + 1, attempt, s, h => by
    unfold retryLoop
    split
    · have h1 : P (if 0 < attempt then delay config.retryDelay s else s) := by
        split
        · exact hd _ _ h
        · exact h
      have h2 := ho _ h1
      have h3 := hf _ h1
      simp only
      split
      · rename_i s2 heq
        rw [heq] at h3
        simp at h3
      · rename_i s2 heq
        rw [heq] at h2
        exact retryLoop_not_true config delay operation P hd ho hf fuel _ s2 h2
    · simp

/-- With `maxRetries = 255`, while the operation fails the loop does not return at all. -/
theorem retryLoop_diverges {σ : Type} (config : Config) (delay : Nat → σ → σ)
    (operation : σ → Bool × σ) (P : σ → Prop) (hmax : config.maxRetries.val = 255)
    (hd : ∀ ms s, P s → P (delay ms s)) (ho : ∀ s, P s → P (operation s).2)
    (hf : ∀ s, P s → (operation s).1 = false) :
    ∀ (fuel attempt : Nat) (s : σ), attempt < 256 → P s →
      (retryLoop config delay operation fuel attempt s).1 = none
  | 0, _, _, _, _ => rfl
  | fuel + 1, attempt, s, ha, h => by
    unfold retryLoop
    rw [if_pos (by omega)]
    have h1 : P (if 0 < attempt then delay config.retryDelay s else s) := by
      split
      · exact hd _ _ h
      · exact h
    have h2 := ho _ h1
    have h3 := hf _ h1
    simp only
    split
    · rename_i s2 heq
      rw [heq] at h3
      simp at h3
    · rename_i s2 heq
      rw [heq] at h2
      exact retryLoop_diverges config delay operation P hmax hd ho hf fuel _ s2
        (Nat.mod_lt _ (by omega)) h2

/-! ## Sending -/

theorem postOnce_client (p : Str) (s : Client × World) :
    s.1.eqUpToError (postOnce p s).2.1 := by
  unfold postOnce Client.eqUpToError
  simp only
  split <;> rfl

theorem postOnce_server (p : Str) (s : Client × World) :
    (postOnce p s).2.2.server = s.2.server ∧ (postOnce p s).2.2.connected = s.2.connected := by
  unfold postOnce
  simp only
  split <;> exact ⟨rfl, rfl⟩

theorem postOnce_fails (p : Str) (s : Client × World) (h : s.2.alwaysFails) :
    (postOnce p s).1 = false ∧ (postOnce p s).2.1.lastError = ErrorCode.HTTP_ERROR := by
  have hk := h s.2.posted
  unfold postOnce
  simp only
  split
  · rename_i hs
    simp only [Bool.and_eq_true, decide_eq_true_eq] at hs
    exact absurd hs hk
  · exact ⟨rfl, rfl⟩

theorem postOnce_false_error (p : Str) (s : Client × World) (h : (postOnce p s).1 = false) :
    (postOnce p s).2.1.lastError = ErrorCode.HTTP_ERROR := by
  by_cases hs : (decide (200 ≤ (s.2.server s.2.posted).code)
      && decide ((s.2.server s.2.posted).code < 300)) = true
  · simp [postOnce, hs] at h
  · simp [postOnce, hs, setError]

theorem eqUpToError_trans {c1 c2 c3 : Client} (h12 : c1.eqUpToError c2)
    (h23 : c2.eqUpToError c3) : c1.eqUpToError c3 := by
  unfold Client.eqUpToError at *
  rw [h23, h12]

theorem eqUpToError_refl (c : Client) : c.eqUpToError c := rfl

/-- A send changes at most the error slot of the client. -/
theorem sendToInfluxDB_client (fuel : Nat) (c : Client) (world : World) (p : Str) :
    c.eqUpToError (sendToInfluxDB fuel c world p).client := by
  unfold sendToInfluxDB
  split
  · rfl
  · exact retryLoop_invariant c.config delayWorld (postOnce p) (fun s => c.eqUpToError s.1)
      (fun _ _ h => h) (fun s h => eqUpToError_trans h (postOnce_client p s)) fuel 0 (c, world)
      (eqUpToError_refl c)

theorem eqUpToError_fields {c1 c2 : Client} (h : c1.eqUpToError c2) :
    c2.tags = c1.tags ∧ c2.tagCount = c1.tagCount ∧ c2.batchBuffer = c1.batchBuffer ∧
      c2.batchCount = c1.batchCount ∧ c2.batchMode = c1.batchMode ∧ c2.config = c1.config := by
  unfold Client.eqUpToError at h
  refine ⟨?_, ?_, ?_, ?_, ?_, ?_⟩ <;> (rw [h])

/-- A send returns when the transport is not connected, and when `maxRetries` is below
255 and the fuel is at least `maxRetries + 2`. -/
theorem sendToInfluxDB_returns (fuel : Nat) (c : Client) (world : World) (p : Str)
    (h : world.connected = false ∨
      (c.config.maxRetries.val < 255 ∧ c.config.maxRetries.val + 2 ≤ fuel)) :
    ∃ b, (sendToInfluxDB fuel c world p).ret = some b := by
  unfold sendToInfluxDB
  split
  · exact ⟨false, rfl⟩
  · rename_i hc
    rcases h with h | ⟨h1, h2⟩
    · simp [h] at hc
    · exact retryLoop_returns c.config delayWorld (postOnce p) h1 fuel 0 (c, world) (by omega)
        (by omega)

/-- A send to a connected transport that fails every POST, with `maxRetries = 255`, does
not return, whatever the fuel. -/
theorem sendToInfluxDB_diverges (fuel : Nat) (c : Client) (world : World) (p : Str)
    (hmax : c.config.maxRetries.val = 255) (hconn : world.connected = true)
    (hfail : world.alwaysFails) :
    (sendToInfluxDB fuel c world p).ret = none := by
  unfold sendToInfluxDB
  rw [if_neg (by simp [hconn])]
  exact retryLoop_diverges c.config delayWorld (postOnce p)
    (fun s => s.2.server = world.server) hmax (fun _ _ h => h)
    (fun s h => by
      show (postOnce p s).2.2.server = world.server
      rw [(postOnce_server p s).1]
      exact h)
    (fun s h => (postOnce_fails p s (by
      unfold World.alwaysFails
      rw [h]
      exact hfail)).1)
    fuel 0 (c, world) (by omega) rfl

/-- A send that returns false has written the error slot. -/
theorem sendToInfluxDB_false (fuel : Nat) (c : Client) (world : World) (p : Str)
    (h : (sendToInfluxDB fuel c world p).ret = some false) :
    (sendToInfluxDB fuel c world p).client.lastError ≠ ErrorCode.NO_ERROR := by
  have key : ∀ (fuel attempt : Nat) (s : Client × World),
      (attempt = 0 ∨ s.1.lastError = ErrorCode.HTTP_ERROR) →
      (retryLoop c.config delayWorld (postOnce p) fuel attempt s).1 = some false →
      (retryLoop c.config delayWorld (postOnce p) fuel attempt s).2.1.lastError
        = ErrorCode.HTTP_ERROR := by
    intro fuel
    induction fuel with
    | zero => intro attempt s _ h; simp [retryLoop] at h
    | succ fuel ih =>
      intro attempt s h0 h
      unfold retryLoop at h ⊢
      split at h
      · simp only at h ⊢
        split at h
        · simp at h
        · rename_i hle x s2 heq
          rw [if_pos hle]
          refine ih _ s2 (Or.inr ?_) h
          have hfalse : (postOnce p (if 0 < attempt then delayWorld c.config.retryDelay s
              else s)).1 = false := by rw [heq]
          have hs2 : (postOnce p (if 0 < attempt then delayWorld c.config.retryDelay s
              else s)).2 = s2 := by rw [heq]
          rw [← hs2]
          exact postOnce_false_error p _ hfalse
      · rename_i hle
        rw [if_neg hle]
        rcases h0 with h0 | h0
        · omega
        · exact h0
  unfold sendToInfluxDB at h ⊢
  split
  · simp [setError]
  · rename_i hc
    rw [if_neg hc] at h
    have := key fuel 0 (c, world) (Or.inl rfl) h
    show (retryOperation c.config delayWorld (postOnce p) fuel (c, world)).2.1.lastError ≠ _
    unfold retryOperation
    rw [this]
    decide

/-! ## Flushing and ending a batch -/

theorem flushBatch_empty (fuel : Nat) (c : Client) (world : World) (h : c.batchCount = 0) :
    flushBatch fuel c world = ⟨some true, c, world⟩ := by
  unfold flushBatch
  rw [if_pos h]

theorem flushBatch_of_some (fuel : Nat) (c : Client) (world : World) (b : Bool)
    (h : c.batchCount ≠ 0) (hr : (sendToInfluxDB fuel c world (batchData c)).ret = some b) :
    flushBatch fuel c world
      = ⟨some b, clearBatch (sendToInfluxDB fuel c world (batchData c)).client,
          (sendToInfluxDB fuel c world (batchData c)).world⟩ := by
  unfold flushBatch
  rw [if_neg h]
  simp only [hr]

theorem flushBatch_of_none (fuel : Nat) (c : Client) (world : World)
    (h : c.batchCount ≠ 0) (hr : (sendToInfluxDB fuel c world (batchData c)).ret = none) :
    flushBatch fuel c world = sendToInfluxDB fuel c world (batchData c) := by
  unfold flushBatch
  rw [if_neg h]
  simp only [hr]

/-- What `flushBatch` does when it returns, and when it is sure to return. -/
theorem flushBatch_spec (fuel : Nat) (c : Client) (world : World) :
    (c.batchCount = 0 → flushBatch fuel c world = ⟨some true, c, world⟩) ∧
      (∀ b, (flushBatch fuel c world).ret = some b →
        (flushBatch fuel c world).client.batchCount = 0 ∧
          (flushBatch fuel c world).client.batch = [] ∧
          (c.batchCount ≠ 0 → (sendToInfluxDB fuel c world (batchData c)).ret = some b)) ∧
      (world.connected = false ∨
          (c.config.maxRetries.val < 255 ∧ c.config.maxRetries.val + 2 ≤ fuel) →
        ∃ b, (flushBatch fuel c world).ret = some b) := by
  refine ⟨flushBatch_empty fuel c world, ?_, ?_⟩
  · intro b hb
    by_cases h0 : c.batchCount = 0
    · rw [flushBatch_empty fuel c world h0]
      exact ⟨h0, by simp [Client.batch, h0], fun h => absurd h0 h⟩
    · cases hr : (sendToInfluxDB fuel c world (batchData c)).ret with
      | none =>
        rw [flushBatch_of_none fuel c world h0 hr, hr] at hb
        simp at hb
      | some b2 =>
        rw [flushBatch_of_some fuel c world b2 h0 hr] at hb ⊢
        simp only [Option.some.injEq] at hb
        subst hb
        exact ⟨rfl, by simp [Client.batch, clearBatch], fun _ => rfl⟩
  · intro h
    by_cases h0 : c.batchCount = 0
    · rw [flushBatch_empty fuel c world h0]
      exact ⟨true, rfl⟩
    · obtain ⟨b, hb⟩ := sendToInfluxDB_returns fuel c world (batchData c) h
      rw [flushBatch_of_some fuel c world b h0 hb]
      exact ⟨b, rfl⟩

theorem endBatch_guard (fuel : Nat) (c : Client) (world : World)
    (h : c.batchMode = false ∨ c.batchCount = 0) :
    endBatch fuel c world = ⟨some false, c, world⟩ := by
  unfold endBatch
  rw [if_pos]
  rcases h with h | h
  · simp [h]
  · simp [h]

theorem endBatch_of_flush (fuel : Nat) (c : Client) (world : World)
    (hm : c.batchMode = true) (h0 : c.batchCount ≠ 0) :
    (∀ b, (flushBatch fuel c world).ret = some b →
        endBatch fuel c world
          = ⟨some b, { (flushBatch fuel c world).client with batchMode := false },
              (flushBatch fuel c world).world⟩) ∧
      ((flushBatch fuel c world).ret = none → endBatch fuel c world = flushBatch fuel c world) := by
  have hg : ¬ ((!c.batchMode || decide (c.batchCount = 0)) = true) := by simp [hm, h0]
  constructor
  · intro b hb
    unfold endBatch
    rw [if_neg hg]
    simp only [hb]
  · intro hb
    unfold endBatch
    rw [if_neg hg]
    simp only [hb]

/-- With `maxRetries = 255`, a non-empty batch and a connected transport that fails every
POST, `flushBatch` does not return, whatever the fuel, and the batch is not cleared. -/
theorem flushBatch_diverges (fuel : Nat) (c : Client) (world : World)
    (hmax : c.config.maxRetries.val = 255) (h0 : c.batchCount ≠ 0)
    (hconn : world.connected = true) (hfail : world.alwaysFails) :
    (flushBatch fuel c world).ret = none ∧
      (flushBatch fuel c world).client.batchCount = c.batchCount ∧
      (flushBatch fuel c world).client.batch = c.batch := by
  have hd := sendToInfluxDB_diverges fuel c world (batchData c) hmax hconn hfail
  obtain ⟨_, _, h3, h4, _, _⟩ :=
    eqUpToError_fields (sendToInfluxDB_client fuel c world (batchData c))
  rw [flushBatch_of_none fuel c world h0 hd]
  exact ⟨hd, h4, by simp [Client.batch, h3, h4]⟩

/-! ## Failures and the error slot -/

theorem addToBatch_false (c : Client) (line : Str) (h : (addToBatch c line).1 = false) :
    (addToBatch c line).2.lastError = ErrorCode.BATCH_FULL := by
  unfold addToBatch at h ⊢
  split
  · rfl
  · rename_i hc
    rw [if_neg hc] at h
    simp at h

/-- The write operations and `flushBatch` write the error slot whenever they return false. -/
theorem write_false_sets_error (w fuel : Nat) (c : Client) (world : World) (millis : Nat)
    (call : PointCall) (measurement : Nested.Measurement) :
    ((call.run w fuel c world).ret = some false →
        (call.run w fuel c world).client.lastError ≠ ErrorCode.NO_ERROR) ∧
      ((writeMeasurement w fuel c world millis measurement).ret = some false →
        (writeMeasurement w fuel c world millis measurement).client.lastError
          ≠ ErrorCode.NO_ERROR) ∧
      ((flushBatch fuel c world).ret = some false →
        (flushBatch fuel c world).client.lastError ≠ ErrorCode.NO_ERROR) := by
  have hbatch : ∀ (c1 : Client) (line : Str), (addToBatch c1 line).1 = false →
      (addToBatch c1 line).2.lastError ≠ ErrorCode.NO_ERROR := by
    intro c1 line h
    rw [addToBatch_false c1 line h]
    decide
  refine ⟨?_, ?_, ?_⟩
  · cases call with
    | str ms m f v =>
      simp only [PointCall.run, writePointString]
      split
      · intro h
        exact hbatch _ _ (by simpa using h)
      · exact sendToInfluxDB_false fuel c world _
    | int ms m f v =>
      simp only [PointCall.run, writePointInt]
      split
      · intro h
        exact hbatch _ _ (by simpa using h)
      · exact sendToInfluxDB_false fuel c world _
    | float ms m f v =>
      simp only [PointCall.run, writePointFloat]
      split
      · split
        · intro _
          simp [setError]
        · intro h
          simp at h
      · exact sendToInfluxDB_false fuel (clearError c) world _
  · simp only [writeMeasurement]
    split
    · intro h
      exact hbatch _ _ (by simpa using h)
    · exact sendToInfluxDB_false fuel c world _
  · intro h
    by_cases h0 : c.batchCount = 0
    · rw [flushBatch_empty fuel c world h0] at h
      simp at h
    · obtain ⟨_, f2, _⟩ := flushBatch_spec fuel c world
      have hs := (f2 false h).2.2 h0
      rw [flushBatch_of_some fuel c world false h0 hs]
      exact sendToInfluxDB_false fuel c world _ hs

/-! ## The counters stay within the arrays -/

theorem inBounds_of_fields {c1 c2 : Client} (ht : c2.tags = c1.tags)
    (htc : c2.tagCount = c1.tagCount) (hb : c2.batchBuffer = c1.batchBuffer)
    (hbc : c2.batchCount = c1.batchCount) (h : c1.InBounds) : c2.InBounds := by
  unfold Client.InBounds Client.WellFormed at *
  rw [ht, htc, hb, hbc]
  exact h

theorem inBounds_of_eqUpToError {c1 c2 : Client} (he : c1.eqUpToError c2) (h : c1.InBounds) :
    c2.InBounds := by
  obtain ⟨h1, h2, h3, h4, _, _⟩ := eqUpToError_fields he
  exact inBounds_of_fields h1 h2 h3 h4 h

theorem inBounds_construct (token org bucket : Str) : (construct token org bucket).InBounds := by
  unfold Client.InBounds Client.WellFormed construct
  simp [MAX_TAGS, MAX_BATCH_SIZE]

theorem inBounds_addTag (c : Client) (k v : Str) (h : c.InBounds) :
    (addTag c k v).2.InBounds := by
  unfold addTag
  split
  · exact h
  · rename_i hc
    obtain ⟨⟨h1, h2⟩, _, h4⟩ := h
    exact ⟨⟨by simpa using h1, h2⟩, by simp only; omega, h4⟩

theorem inBounds_clearTags (c : Client) (h : c.InBounds) : (clearTags c).InBounds :=
  ⟨h.1, Nat.zero_le _, h.2.2⟩

theorem inBounds_clearBatch (c : Client) (h : c.InBounds) : (clearBatch c).InBounds :=
  ⟨h.1, h.2.1, Nat.zero_le _⟩

theorem inBounds_setDevice (c : Client) (device : Nested.Device) (h : c.InBounds) :
    (setDevice c device).InBounds := by
  have h0 : (clearTags { c with currentDevice := device }).InBounds :=
    inBounds_clearTags _ (inBounds_of_fields rfl rfl rfl rfl h)
  unfold setDevice
  simp only
  split
  · split
    · exact inBounds_addTag _ _ _ (inBounds_addTag _ _ _ h0)
    · exact inBounds_addTag _ _ _ h0
  · split
    · exact inBounds_addTag _ _ _ h0
    · exact h0

theorem inBounds_addToBatch (c : Client) (line : Str) (h : c.InBounds) :
    (addToBatch c line).2.InBounds := by
  unfold addToBatch
  split
  · exact inBounds_of_fields rfl rfl rfl rfl h
  · rename_i hc
    obtain ⟨⟨h1, h2⟩, h3, _⟩ := h
    exact ⟨⟨h1, by simpa using h2⟩, h3, by simp only; omega⟩

theorem inBounds_send (fuel : Nat) (c : Client) (world : World) (p : Str) (h : c.InBounds) :
    (sendToInfluxDB fuel c world p).client.InBounds :=
  inBounds_of_eqUpToError (sendToInfluxDB_client fuel c world p) h

theorem inBounds_flushBatch (fuel : Nat) (c : Client) (world : World) (h : c.InBounds) :
    (flushBatch fuel c world).client.InBounds := by
  by_cases h0 : c.batchCount = 0
  · rw [flushBatch_empty fuel c world h0]
    exact h
  · cases hr : (sendToInfluxDB fuel c world (batchData c)).ret with
    | none =>
      rw [flushBatch_of_none fuel c world h0 hr]
      exact inBounds_send fuel c world _ h
    | some b =>
      rw [flushBatch_of_some fuel c world b h0 hr]
      exact inBounds_clearBatch _ (inBounds_send fuel c world _ h)

theorem inBounds_endBatch (fuel : Nat) (c : Client) (world : World) (h : c.InBounds) :
    (endBatch fuel c world).client.InBounds := by
  by_cases hg : c.batchMode = false ∨ c.batchCount = 0
  · rw [endBatch_guard fuel c world hg]
    exact h
  · have hm : c.batchMode = true := by
      cases hb : c.batchMode with
      | true => rfl
      | false => exact absurd (Or.inl hb) hg
    have h0 : c.batchCount ≠ 0 := fun e => hg (Or.inr e)
    obtain ⟨e1, e2⟩ := endBatch_of_flush fuel c world hm h0
    cases hr : (flushBatch fuel c world).ret with
    | none =>
      rw [e2 hr]
      exact inBounds_flushBatch fuel c world h
    | some b =>
      rw [e1 b hr]
      exact inBounds_of_fields rfl rfl rfl rfl (inBounds_flushBatch fuel c world h)

theorem inBounds_run (w fuel : Nat) (c : Client) (world : World) (call : PointCall)
    (h : c.InBounds) : (call.run w fuel c world).client.InBounds := by
  have h0 : (clearError c).InBounds := inBounds_of_fields rfl rfl rfl rfl h
  cases call with
  | str ms m f v =>
    simp only [PointCall.run, writePointString]
    split
    · exact inBounds_addToBatch _ _ h
    · exact inBounds_send _ _ _ _ h
  | int ms m f v =>
    simp only [PointCall.run, writePointInt]
    split
    · exact inBounds_addToBatch _ _ h
    · exact inBounds_send _ _ _ _ h
  | float ms m f v =>
    simp only [PointCall.run, writePointFloat]
    split
    · split
      · exact inBounds_of_fields rfl rfl rfl rfl (inBounds_addToBatch _ _ h0)
      · exact inBounds_addToBatch _ _ h0
    · exact inBounds_send _ _ _ _ h0

theorem inBounds_writeMeasurement (w fuel : Nat) (c : Client) (world : World) (millis : Nat)
    (measurement : Nested.Measurement) (h : c.InBounds) :
    (writeMeasurement w fuel c world millis measurement).client.InBounds := by
  simp only [writeMeasurement]
  split
  · exact inBounds_addToBatch _ _ h
  · exact inBounds_send _ _ _ _ h

theorem inBounds_writeMeasurementsLoop (w fuel : Nat) (millis : Nat → Nat) :
    ∀ (measurements : List Nested.Measurement) (i : Nat) (c : Client) (world : World),
      c.InBounds → (writeMeasurementsLoop w fuel millis measurements i c world).client.InBounds
  | [], _, c, world, h => inBounds_endBatch fuel c world h
  | m :: rest, i, c, world, h => by
    have h1 := inBounds_writeMeasurement w fuel c world (millis i) m h
    unfold writeMeasurementsLoop
    simp only
    split
    · exact h1
    · exact h1
    · exact inBounds_writeMeasurementsLoop w fuel millis rest (i + 1) _ _ h1

theorem inBounds_writeMeasurements (w fuel : Nat) (c : Client) (world : World)
    (millis : Nat → Nat) (measurements : List Nested.Measurement) (h : c.InBounds) :
    (writeMeasurements w fuel c world millis measurements).client.InBounds :=
  inBounds_writeMeasurementsLoop w fuel millis measurements 0 _ world
    (inBounds_of_fields rfl rfl rfl rfl h)

theorem reachable_inv {c : Client} (h : Reachable c) : c.InBounds := by
  induction h with
  | init token org bucket => exact inBounds_construct token org bucket
  | stepSetConfig config _ ih => exact inBounds_of_fields rfl rfl rfl rfl ih
  | stepClearError _ ih => exact inBounds_of_fields rfl rfl rfl rfl ih
  | stepSetTimeUnit unit _ ih => exact inBounds_of_fields rfl rfl rfl rfl ih
  | stepAddTag key value _ ih => exact inBounds_addTag _ key value ih
  | stepClearTags _ ih => exact inBounds_clearTags _ ih
  | stepSetDevice device _ ih => exact inBounds_setDevice _ device ih
  | stepBeginBatch _ ih => exact inBounds_of_fields rfl rfl rfl rfl ih
  | stepEndBatch fuel world _ ih => exact inBounds_endBatch fuel _ world ih
  | stepClearBatch _ ih => exact inBounds_clearBatch _ ih
  | stepFlushBatch fuel world _ ih => exact inBounds_flushBatch fuel _ world ih
  | stepWritePoint w fuel world call _ ih => exact inBounds_run w fuel _ world call ih
  | stepWriteMeasurement w fuel world millis m _ ih =>
    exact inBounds_writeMeasurement w fuel _ world millis m ih
  | stepWriteMeasurements w fuel world millis ms _ ih =>
    exact inBounds_writeMeasurements w fuel _ world millis ms ih

/-! ## `escapeString` has a left inverse -/

theorem head_flatMap_escapeChar (s : Str) (d : Char) (rest : Str)
    (h : s.flatMap escapeChar = d :: rest) : ¬ (d = ',' ∨ d = '=') := by
  cases s with
  | nil => simp at h
  | cons c cs =>
    rw [List.flatMap_cons] at h
    unfold escapeChar at h
    by_cases hc : c = ',' ∨ c = '='
    · rw [if_pos hc] at h
      simp only [List.cons_append, List.nil_append, List.cons.injEq] at h
      rw [← h.1]
      decide
    · rw [if_neg hc] at h
      simp only [List.cons_append, List.nil_append, List.cons.injEq] at h
      rw [← h.1]
      exact hc

theorem unescape_flatMap_escapeChar : ∀ (s : Str), unescape (s.flatMap escapeChar) = s
  | [] => rfl
  | c :: cs => by
    have ih := unescape_flatMap_escapeChar cs
    rw [List.flatMap_cons]
    by_cases hc : c = ',' ∨ c = '='
    · have e : escapeChar c = ['\\', c] := by simp [escapeChar, hc]
      rw [e]
      simp only [List.cons_append, List.nil_append]
      rw [unescape, if_pos ⟨rfl, hc⟩, ih]
    · have e : escapeChar c = [c] := by simp [escapeChar, hc]
      rw [e]
      simp only [List.cons_append, List.nil_append]
      cases hf : cs.flatMap escapeChar with
      | nil =>
        rw [hf] at ih
        rw [unescape, ← ih]
        rfl
      | cons d rest =>
        have hd := head_flatMap_escapeChar cs d rest hf
        rw [hf] at ih
        rw [unescape, if_neg (fun h => hd h.2), ih]

/-! ## What a send writes to the error slot, and how often it posts -/

theorem postOnce_lastError (p : Str) (s : Client × World) :
    (postOnce p s).2.1.lastError = s.1.lastError ∨
      (postOnce p s).2.1.lastError = ErrorCode.HTTP_ERROR := by
  by_cases hs : (decide (200 ≤ (s.2.server s.2.posted).code)
      && decide ((s.2.server s.2.posted).code < 300)) = true
  · left
    simp [postOnce, hs]
  · right
    simp [postOnce, hs, setError]

theorem postOnce_posted (p : Str) (s : Client × World) :
    (postOnce p s).2.2.posted = s.2.posted + 1 := by
  unfold postOnce
  simp only
  split <;> rfl

/-- After a send the error slot holds what it held before, `NOT_CONNECTED` or
`HTTP_ERROR`. -/
theorem sendToInfluxDB_lastError (fuel : Nat) (c : Client) (world : World) (p : Str) :
    (sendToInfluxDB fuel c world p).client.lastError = c.lastError ∨
      (sendToInfluxDB fuel c world p).client.lastError = ErrorCode.NOT_CONNECTED ∨
      (sendToInfluxDB fuel c world p).client.lastError = ErrorCode.HTTP_ERROR := by
  unfold sendToInfluxDB
  split
  · exact Or.inr (Or.inl rfl)
  · have h := retryLoop_invariant c.config delayWorld (postOnce p)
      (fun s => s.1.lastError = c.lastError ∨ s.1.lastError = ErrorCode.HTTP_ERROR)
      (fun _ _ h => h)
      (fun s h => by
        rcases postOnce_lastError p s with e | e
        · rcases h with h | h
          · exact Or.inl (e.trans h)
          · exact Or.inr (e.trans h)
        · exact Or.inr e)
      fuel 0 (c, world) (Or.inl rfl)
    rcases h with h | h
    · exact Or.inl h
    · exact Or.inr (Or.inr h)

/-- The loop of a send against a transport that fails every POST, `maxRetries` below 255,
entered after `attempt` POSTs: it makes the remaining `maxRetries + 1 - attempt` POSTs and
returns false with `HTTP_ERROR` in the error slot. -/
theorem retryLoop_all_fail (config : Config) (p : Str) (hmax : config.maxRetries.val < 255) :
    ∀ (fuel attempt : Nat) (s : Client × World), attempt ≤ config.maxRetries.val + 1 →
      config.maxRetries.val + 2 ≤ fuel + attempt → s.2.alwaysFails →
      (attempt = 0 ∨ s.1.lastError = ErrorCode.HTTP_ERROR) →
      (retryLoop config delayWorld (postOnce p) fuel attempt s).1 = some false ∧
        (retryLoop config delayWorld (postOnce p) fuel attempt s).2.2.posted
          = s.2.posted + (config.maxRetries.val + 1 - attempt) ∧
        (retryLoop config delayWorld (postOnce p) fuel attempt s).2.2.trace.countP Event.isPost
          = s.2.trace.countP Event.isPost + (config.maxRetries.val + 1 - attempt) ∧
        (retryLoop config delayWorld (postOnce p) fuel attempt s).2.1.lastError
          = ErrorCode.HTTP_ERROR
  | 0, attempt, _, h1, h2, _, _ => by omega
  | fuel + 1, attempt, s, h1, h2, hfail, herr => by
    unfold retryLoop
    by_cases hle : attempt ≤ config.maxRetries.val
    · rw [if_pos hle]
      have d3 : (if 0 < attempt then delayWorld config.retryDelay s else s).2.server
            = s.2.server ∧
          ((if 0 < attempt then delayWorld config.retryDelay s else s).2.posted = s.2.posted ∧
            (if 0 < attempt then delayWorld config.retryDelay s else s).2.trace.countP
                Event.isPost
              = s.2.trace.countP Event.isPost) := by
        refine ⟨?_, ?_⟩
        · split <;> rfl
        · split
          · exact ⟨rfl, by simp [delayWorld, List.countP_append, List.countP_cons, Event.isPost]⟩
          · exact ⟨rfl, rfl⟩
      simp only
      generalize (if 0 < attempt then delayWorld config.retryDelay s else s) = d1 at d3 ⊢
      obtain ⟨e2, e3⟩ := d3
      have hf1 : d1.2.alwaysFails := by
        unfold World.alwaysFails
        rw [e2]
        exact hfail
      obtain ⟨p1, p2⟩ := postOnce_fails p d1 hf1
      obtain ⟨p3, _, _, _⟩ := postOnce_spec p d1
      have p4 := postOnce_posted p d1
      obtain ⟨p5, _⟩ := postOnce_server p d1
      split
      · rename_i s2 heq
        rw [heq] at p1
        simp at p1
      · rename_i s2 heq
        rw [heq] at p2 p3 p4 p5
        simp only at p2 p3 p4 p5
        have hf2 : s2.2.alwaysFails := by
          unfold World.alwaysFails
          rw [p5, e2]
          exact hfail
        have hmod : (attempt + 1) % 256 = attempt + 1 := Nat.mod_eq_of_lt (by omega)
        rw [hmod]
        obtain ⟨i1, i2, i3, i4⟩ := retryLoop_all_fail config p hmax fuel (attempt + 1) s2
          (by omega) (by omega) hf2 (Or.inr p2)
        refine ⟨i1, ?_, ?_, i4⟩
        · rw [i2, p4, e3.1]
          omega
        · rw [i3, p3, List.countP_append, e3.2]
          simp only [List.countP_cons, List.countP_nil, Event.isPost]
          simp only [if_true]
          omega
    · rw [if_neg hle]
      have ha : attempt = config.maxRetries.val + 1 := by omega
      refine ⟨rfl, by simp only; omega, by simp only; omega, ?_⟩
      rcases herr with h | h
      · omega
      · exact h

/-! ## Timestamps -/

theorem mulULong_of_lt (w a b : Nat) (h : a * b < 2 ^ w) : mulULong w a b = a * b :=
  Nat.mod_eq_of_lt h

/-- The line of `writeMeasurement`: the measurement, the tags, the field, and as last token
the timestamp rendered by `formatTimestamp` under the unit of the measurement. -/
theorem measurementLine_eq (w : Nat) (c : Client) (millis : Nat)
    (measurement : Nested.Measurement) :
    measurementLine w c millis measurement
      = escapeString measurement.name ++ c.tagSet.flatMap tagSegment ++ [' ']
        ++ escapeString measurement.field ++ ['=', '"'] ++ escapeString measurement.value
        ++ ['"'] ++ [' ']
        ++ formatTimestamp w
          (if 0 < measurement.time then measurement.time else getCurrentTimestamp w c millis)
          measurement.unit := by
  unfold measurementLine
  simp only [appendTags_eq]
  simp

/-! ## `writeMeasurements` -/

theorem writeMeasurement_room (w fuel : Nat) (c : Client) (world : World) (millis : Nat)
    (measurement : Nested.Measurement) (hm : c.batchMode = true)
    (hroom : c.batchCount < MAX_BATCH_SIZE) :
    ∃ c2, writeMeasurement w fuel c world millis measurement = ⟨some true, c2, world⟩ ∧
      c2.batchMode = true ∧ c2.batchCount = c.batchCount + 1 ∧ c2.config = c.config := by
  have hn : ¬ c.batchCount ≥ MAX_BATCH_SIZE := by omega
  refine ⟨(addToBatch c (measurementLine w c millis measurement)).2, ?_, ?_, ?_, ?_⟩
  · simp only [writeMeasurement, hm, if_true]
    simp [addToBatch, hn]
  · simp [addToBatch, hn, hm]
  · simp [addToBatch, hn]
  · simp [addToBatch, hn]

theorem writeMeasurement_full (w fuel : Nat) (c : Client) (world : World) (millis : Nat)
    (measurement : Nested.Measurement) (hm : c.batchMode = true)
    (hfull : c.batchCount ≥ MAX_BATCH_SIZE) :
    ∃ c2, writeMeasurement w fuel c world millis measurement = ⟨some false, c2, world⟩ ∧
      c2.batchMode = true ∧ c2.batchCount = c.batchCount := by
  refine ⟨(addToBatch c (measurementLine w c millis measurement)).2, ?_, ?_, ?_⟩
  · simp only [writeMeasurement, hm, if_true]
    simp [addToBatch, hfull]
  · simp [addToBatch, hfull, setError, hm]
  · simp [addToBatch, hfull, setError]

/-- When the measurements fit in the batch, the loop of `writeMeasurements` buffers them
all and ends in the `endBatch` of a batching client holding that many more lines. -/
theorem writeMeasurementsLoop_fits (w fuel : Nat) (millis : Nat → Nat) :
    ∀ (measurements : List Nested.Measurement) (i : Nat) (c : Client) (world : World),
      c.batchMode = true → c.batchCount + measurements.length ≤ MAX_BATCH_SIZE →
      ∃ c2, writeMeasurementsLoop w fuel millis measurements i c world = endBatch fuel c2 world ∧
        c2.batchMode = true ∧ c2.batchCount = c.batchCount + measurements.length ∧
        c2.config = c.config
  | [], _, c, _, hm, _ => ⟨c, rfl, hm, rfl, rfl⟩
  | m :: rest, i, c, world, hm, hle => by
    simp only [List.length_cons] at hle
    obtain ⟨c1, e1, m1, n1, g1⟩ := writeMeasurement_room w fuel c world (millis i) m hm (by omega)
    obtain ⟨c2, e2, m2, n2, g2⟩ := writeMeasurementsLoop_fits w fuel millis rest (i + 1) c1 world
      m1 (by omega)
    refine ⟨c2, ?_, m2, ?_, g2.trans g1⟩
    · unfold writeMeasurementsLoop
      simp only [e1]
      exact e2
    · rw [n2, n1, List.length_cons]
      omega

/-- When the measurements do not fit in the batch, the loop of `writeMeasurements` returns
false at the first one without room: the client is still batching and the batch is full. -/
theorem writeMeasurementsLoop_overflow (w fuel : Nat) (millis : Nat → Nat) :
    ∀ (measurements : List Nested.Measurement) (i : Nat) (c : Client) (world : World),
      c.batchMode = true → c.batchCount ≤ MAX_BATCH_SIZE →
      MAX_BATCH_SIZE < c.batchCount + measurements.length →
      (writeMeasurementsLoop w fuel millis measurements i c world).ret = some false ∧
        (writeMeasurementsLoop w fuel millis measurements i c world).client.batchMode = true ∧
        (writeMeasurementsLoop w fuel millis measurements i c world).client.batchCount
          = MAX_BATCH_SIZE
  | [], _, c, _, _, h1, h2 => by
    simp only [List.length_nil] at h2
    omega
  | m :: rest, i, c, world, hm, h1, h2 => by
    simp only [List.length_cons] at h2
    by_cases hroom : c.batchCount < MAX_BATCH_SIZE
    · obtain ⟨c1, e1, m1, n1, _⟩ := writeMeasurement_room w fuel c world (millis i) m hm hroom
      obtain ⟨r1, r2, r3⟩ := writeMeasurementsLoop_overflow w fuel millis rest (i + 1) c1 world
        m1 (by omega) (by omega)
      unfold writeMeasurementsLoop
      simp only [e1]
      exact ⟨r1, r2, r3⟩
    · obtain ⟨c1, e1, m1, n1⟩ := writeMeasurement_full w fuel c world (millis i) m hm
        (by omega)
      unfold writeMeasurementsLoop
      simp only [e1]
      exact ⟨trivial, m1, by rw [n1]; omega⟩

/-- On a batching client with at least one line buffered: once `endBatch` returns the client
is idle and the batch empty; and it returns when the transport is not connected, and when
`maxRetries` is below 255 and the fuel is at least `maxRetries + 2`. -/
theorem endBatch_batching (fuel : Nat) (c : Client) (world : World) (hm : c.batchMode = true)
    (h1 : 1 ≤ c.batchCount) :
    (∀ b, (endBatch fuel c world).ret = some b →
        (endBatch fuel c world).client.batchMode = false ∧
          (endBatch fuel c world).client.batchCount = 0 ∧
          (endBatch fuel c world).client.batch = []) ∧
      ((world.connected = false ∨
          (c.config.maxRetries.val < 255 ∧ c.config.maxRetries.val + 2 ≤ fuel)) →
        ∃ b, (endBatch fuel c world).ret = some b) := by
  have h0 : c.batchCount ≠ 0 := by omega
  obtain ⟨e1, e2⟩ := endBatch_of_flush fuel c world hm h0
  obtain ⟨_, f2, f3⟩ := flushBatch_spec fuel c world
  constructor
  · intro b hb
    cases hr : (flushBatch fuel c world).ret with
    | none =>
      rw [e2 hr, hr] at hb
      simp at hb
    | some b2 =>
      obtain ⟨g1, _, _⟩ := f2 b2 hr
      rw [e1 b2 hr]
      refine ⟨rfl, g1, ?_⟩
      simpa [Client.batch] using g1
  · intro h
    obtain ⟨b, hb⟩ := f3 h
    rw [e1 b hb]
    exact ⟨b, rfl⟩

/-! ## The claims -/

/-- C1 (defect in the code). On the string `a b`, `escapeString` returns `a b` unchanged:
the space gets no backslash, where the claim, like `specEscape`, asks for `a\ b`. -/
theorem escapeString_space_unescaped :
    escapeString "a b".toList = "a b".toList ∧
      specEscape "a b".toList = "a\\ b".toList ∧
      (escapeString "a b".toList).length ≠ "a b".toList.length + 1 := by
  decide

/-- C2 (defect in the code, the one of C1). On the string `a b`, which contains a space,
escaping twice gives the same string as escaping once, where the claim asks for a
different one. -/
theorem escapeString_twice_space :
    escapeString (escapeString "a b".toList) = escapeString "a b".toList := by
  decide

/-- C3. With no tag in use, the string overload of `formatLineProtocol` renders
`escape(m) ++ " " ++ escape(f) ++ "=" ++ quote ++ escape(v) ++ quote ++ " " ++ ts`, where
`escape` is `escapeString` and `ts` is the token `String(millis() * 1000000)`; for
`("temp", "value", "23.5")` this is `temp value="23.5" <ts>`. -/
theorem formatLineProtocolString_no_tags (w : Nat) (c : Client) (millis : Nat) (m f v : Str)
    (h : c.tagCount = 0) :
    formatLineProtocolString w c millis m f v
        = escapeString m ++ " ".toList ++ escapeString f ++ "=".toList ++ ['"']
          ++ escapeString v ++ ['"'] ++ " ".toList ++ millisToken w millis ∧
      formatLineProtocolString w c millis "temp".toList "value".toList "23.5".toList
        = "temp value=\"23.5\" ".toList ++ millisToken w millis := by
  have key : ∀ m f v : Str, formatLineProtocolString w c millis m f v
      = escapeString m ++ " ".toList ++ escapeString f ++ "=".toList ++ ['"']
        ++ escapeString v ++ ['"'] ++ " ".toList ++ millisToken w millis := by
    intro m f v
    unfold formatLineProtocolString
    simp only [appendTags_eq]
    simp [Client.tagSet, h]
  refine ⟨key m f v, ?_⟩
  rw [key]
  have e1 : escapeString "temp".toList = "temp".toList := by decide
  have e2 : escapeString "value".toList = "value".toList := by decide
  have e3 : escapeString "23.5".toList = "23.5".toList := by decide
  rw [e1, e2, e3]
  rfl

theorem formatLineProtocolString_no_tags_witness :
    (construct "token".toList "org".toList "bucket".toList).tagCount = 0 ∧
      (formatLineProtocolString 32 (construct "token".toList "org".toList "bucket".toList) 1234
          "my temp".toList "a,b".toList "x=y".toList
        = escapeString "my temp".toList ++ " ".toList ++ escapeString "a,b".toList
          ++ "=".toList ++ ['"'] ++ escapeString "x=y".toList ++ ['"'] ++ " ".toList
          ++ millisToken 32 1234 ∧
      formatLineProtocolString 32 (construct "token".toList "org".toList "bucket".toList) 1234
          "temp".toList "value".toList "23.5".toList
        = "temp value=\"23.5\" ".toList ++ millisToken 32 1234) :=
  ⟨rfl, formatLineProtocolString_no_tags 32
    (construct "token".toList "org".toList "bucket".toList) 1234
    "my temp".toList "a,b".toList "x=y".toList rfl⟩

/-- C4. With no tag in use, the integer overload of `formatLineProtocol` renders
`escape(m) ++ " " ++ escape(f) ++ "=" ++ decimal(n) ++ "i" ++ " " ++ ts` for every integer
`n`, where `decimal` is `String(int)` (a minus sign before the digits of a negative value);
for `("temp", "value", 23)` this is `temp value=23i <ts>`, and for `-7` it is
`temp value=-7i <ts>`. -/
theorem formatLineProtocolInt_no_tags (w : Nat) (c : Client) (millis : Nat) (m f : Str)
    (n : Int) (h : c.tagCount = 0) :
    formatLineProtocolInt w c millis m f n
        = escapeString m ++ " ".toList ++ escapeString f ++ "=".toList ++ stringOfInt n
          ++ "i".toList ++ " ".toList ++ millisToken w millis ∧
      formatLineProtocolInt w c millis "temp".toList "value".toList 23
        = "temp value=23i ".toList ++ millisToken w millis ∧
      formatLineProtocolInt w c millis "temp".toList "value".toList (-7)
        = "temp value=-7i ".toList ++ millisToken w millis := by
  have key : ∀ (m f : Str) (n : Int), formatLineProtocolInt w c millis m f n
      = escapeString m ++ " ".toList ++ escapeString f ++ "=".toList ++ stringOfInt n
        ++ "i".toList ++ " ".toList ++ millisToken w millis := by
    intro m f n
    unfold formatLineProtocolInt
    simp only [appendTags_eq]
    simp [Client.tagSet, h]
  have e1 : escapeString "temp".toList = "temp".toList := by decide
  have e2 : escapeString "value".toList = "value".toList := by decide
  have e3 : stringOfInt 23 = "23".toList := by decide
  have e4 : stringOfInt (-7) = "-7".toList := by decide
  refine ⟨key m f n, ?_, ?_⟩
  · rw [key, e1, e2, e3]; rfl
  · rw [key, e1, e2, e4]; rfl

theorem formatLineProtocolInt_no_tags_witness :
    (construct "token".toList "org".toList "bucket".toList).tagCount = 0 ∧
      (formatLineProtocolInt 32 (construct "token".toList "org".toList "bucket".toList) 1234
          "my temp".toList "a,b".toList (-42)
        = escapeString "my temp".toList ++ " ".toList ++ escapeString "a,b".toList
          ++ "=".toList ++ stringOfInt (-42) ++ "i".toList ++ " ".toList
          ++ millisToken 32 1234 ∧
      formatLineProtocolInt 32 (construct "token".toList "org".toList "bucket".toList) 1234
          "temp".toList "value".toList 23
        = "temp value=23i ".toList ++ millisToken 32 1234 ∧
      formatLineProtocolInt 32 (construct "token".toList "org".toList "bucket".toList) 1234
          "temp".toList "value".toList (-7)
        = "temp value=-7i ".toList ++ millisToken 32 1234) :=
  ⟨rfl, formatLineProtocolInt_no_tags 32
    (construct "token".toList "org".toList "bucket".toList) 1234
    "my temp".toList "a,b".toList (-42) rfl⟩

/-- C5. After the tags `kvs` (at most `MAX_TAGS` of them) have been added in list order to a
cleared tag set, the tag set is `kvs`, and the line rendered by the string overload, by the
integer overload and by `writeMeasurement` is `escape(m)`, then the segments
`"," ++ escape(k) ++ "=" ++ escape(v)` of the tags in insertion order, then the single space
before the field, then the field and the timestamp; `writeMeasurement` hands that line to
`addToBatch` or to `sendToInfluxDB`. -/
theorem encoded_line_tag_segments (w fuel : Nat) (c : Client) (world : World) (kvs : List Tag)
    (millis : Nat) (m f v : Str) (n : Int) (meas : Nested.Measurement)
    (hwf : c.WellFormed) (hlen : kvs.length ≤ MAX_TAGS) :
    (addTags (clearTags c) kvs).tagSet = kvs ∧
      formatLineProtocolString w (addTags (clearTags c) kvs) millis m f v
        = escapeString m ++ kvs.flatMap tagSegment ++ [' ']
          ++ (escapeString f ++ ['=', '"'] ++ escapeString v ++ ['"', ' ']
            ++ millisToken w millis) ∧
      formatLineProtocolInt w (addTags (clearTags c) kvs) millis m f n
        = escapeString m ++ kvs.flatMap tagSegment ++ [' ']
          ++ (escapeString f ++ ['='] ++ stringOfInt n ++ ['i', ' '] ++ millisToken w millis) ∧
      measurementLine w (addTags (clearTags c) kvs) millis meas
        = escapeString meas.name ++ kvs.flatMap tagSegment ++ [' ']
          ++ (escapeString meas.field ++ ['=', '"'] ++ escapeString meas.value ++ ['"', ' ']
            ++ formatTimestamp w
              (if 0 < meas.time then meas.time
                else getCurrentTimestamp w (addTags (clearTags c) kvs) millis) meas.unit) ∧
      writeMeasurement w fuel (addTags (clearTags c) kvs) world millis meas
        = if (addTags (clearTags c) kvs).batchMode then
            ⟨some (addToBatch (addTags (clearTags c) kvs)
                (measurementLine w (addTags (clearTags c) kvs) millis meas)).1,
              (addToBatch (addTags (clearTags c) kvs)
                (measurementLine w (addTags (clearTags c) kvs) millis meas)).2, world⟩
          else sendToInfluxDB fuel (addTags (clearTags c) kvs) world
            (measurementLine w (addTags (clearTags c) kvs) millis meas) := by
  have hset : (addTags (clearTags c) kvs).tagSet = kvs := by
    have h := tagSet_addTags kvs (clearTags c) hwf
      (by simp only [clearTags]; omega)
    rw [h, tagSet_clearTags]
    rfl
  refine ⟨hset, ?_, ?_, ?_, rfl⟩
  · unfold formatLineProtocolString
    simp only [appendTags_eq, hset]
    simp
  · unfold formatLineProtocolInt
    simp only [appendTags_eq, hset]
    simp
  · unfold measurementLine
    simp only [appendTags_eq, hset]
    simp

theorem encoded_line_tag_segments_witness :
    (construct [] [] []).WellFormed ∧
      ([{ key := "site".toList, value := "a b".toList },
        { key := "k,1".toList, value := "x=y".toList }] : List Tag).length ≤ MAX_TAGS ∧
      formatLineProtocolInt 32
          (addTags (clearTags (construct [] [] []))
            [{ key := "site".toList, value := "a b".toList },
              { key := "k,1".toList, value := "x=y".toList }])
          7 "temp".toList "value".toList 23
        = "temp,site=a b,k\\,1=x\\=y value=23i 7000000".toList :=
  ⟨by decide, by decide,
    (encoded_line_tag_segments 32 0 (construct [] [] []) ⟨true, fun _ => ⟨204, []⟩, 0, []⟩
      [{ key := "site".toList, value := "a b".toList },
        { key := "k,1".toList, value := "x=y".toList }]
      7 "temp".toList "value".toList "23.5".toList 23
      { name := "temp".toList, field := "value".toList, value := "23.5".toList }
      (by decide) (by decide)).2.2.1.trans (by decide)⟩

/-- C6 (defect in the code). On a 32-bit `unsigned long`, `formatTimestamp(5, SECONDS)`
renders `705032704`, the product `5 * 1000000000` reduced modulo `2 ^ 32`, where the claim
asks for the exact `5000000000`; a 64-bit `unsigned long` wraps in the same way at
`18446744074` seconds. -/
theorem formatTimestamp_wraps :
    formatTimestamp 32 5 TimeUnit.SECONDS = "705032704".toList ∧
      stringOfNat (5 * 1000000000) = "5000000000".toList ∧
      5 < 2 ^ 32 ∧
      formatTimestamp 64 18446744074 TimeUnit.SECONDS = "290448384".toList ∧
      18446744074 < 2 ^ 64 := by
  decide

/-- C7. On a client whose tag array has its declared size: with `MAX_TAGS` (10) tags in use
`addTag` returns false and leaves the whole client, tag count and stored tags included,
unchanged; with fewer it returns true, the tag count grows by one and the tag set is the
former tag set followed by `(k, v)`. -/
theorem addTag_capacity (c : Client) (k v : Str) (hwf : c.WellFormed) :
    (c.tagCount = MAX_TAGS → addTag c k v = (false, c)) ∧
      (c.tagCount < MAX_TAGS →
        (addTag c k v).1 = true ∧
          (addTag c k v).2.tagCount = c.tagCount + 1 ∧
          (addTag c k v).2.tagSet = c.tagSet ++ [{ key := k, value := v }]) := by
  constructor
  · intro h
    unfold addTag
    rw [if_pos (by omega)]
  · intro h
    refine ⟨?_, tagCount_addTag c k v h, tagSet_addTag c k v hwf h⟩
    unfold addTag
    rw [if_neg (by omega)]

theorem addTag_capacity_witness :
    (addTags (construct [] [] []) (List.replicate 10 { key := ['k'], value := ['v'] })).WellFormed ∧
      ((addTags (construct [] [] []) (List.replicate 10 { key := ['k'], value := ['v'] })).tagCount
          = MAX_TAGS →
        addTag (addTags (construct [] [] []) (List.replicate 10 { key := ['k'], value := ['v'] }))
            ['a'] ['b']
          = (false,
            addTags (construct [] [] []) (List.replicate 10 { key := ['k'], value := ['v'] }))) :=
  ⟨by decide,
    (addTag_capacity
      (addTags (construct [] [] []) (List.replicate 10 { key := ['k'], value := ['v'] }))
      ['a'] ['b'] (by decide)).1⟩

/-- C8. On a client whose tag array has its declared size, whatever tags were in use before
(a full set included): after `setDevice(device)` with a non-empty id and a non-empty
location the tag set is exactly `[("device", id), ("location", location)]`; in general it
holds the `device` tag if the id is non-empty, then the `location` tag if the location is
non-empty, and nothing else. -/
theorem setDevice_tagSet (c : Client) (device : Nested.Device) (hwf : c.WellFormed) :
    (device.id ≠ [] → device.location ≠ [] →
        (setDevice c device).tagSet
          = [{ key := "device".toList, value := device.id },
              { key := "location".toList, value := device.location }]) ∧
      (setDevice c device).tagSet
        = (if device.id = [] then []
            else [({ key := "device".toList, value := device.id } : Tag)])
          ++ (if device.location = [] then []
            else [({ key := "location".toList, value := device.location } : Tag)]) := by
  have hgen : (setDevice c device).tagSet
      = (if device.id = [] then []
          else [({ key := "device".toList, value := device.id } : Tag)])
        ++ (if device.location = [] then []
          else [({ key := "location".toList, value := device.location } : Tag)]) := by
    have hwf0 : (clearTags { c with currentDevice := device }).WellFormed := hwf
    have hset0 := tagSet_clearTags { c with currentDevice := device }
    have hcnt0 : (clearTags { c with currentDevice := device }).tagCount < MAX_TAGS := by
      simp [clearTags, MAX_TAGS]
    unfold setDevice
    simp only
    by_cases hid : device.id = []
    · have h1 : ¬ 0 < device.id.length := by simp [hid]
      rw [if_neg h1, if_pos hid]
      by_cases hloc : device.location = []
      · have h2 : ¬ 0 < device.location.length := by simp [hloc]
        rw [if_neg h2, if_pos hloc, hset0]
        rfl
      · have h2 : 0 < device.location.length := List.length_pos.mpr hloc
        rw [if_pos h2, if_neg hloc, tagSet_addTag _ _ _ hwf0 hcnt0, hset0]
    · have h1 : 0 < device.id.length := List.length_pos.mpr hid
      rw [if_pos h1, if_neg hid]
      have hwf1 := addTag_wellFormed _ "device".toList device.id hwf0
      have hset1 := tagSet_addTag _ "device".toList device.id hwf0 hcnt0
      have hcnt1 := tagCount_addTag _ "device".toList device.id hcnt0
      by_cases hloc : device.location = []
      · have h2 : ¬ 0 < device.location.length := by simp [hloc]
        rw [if_neg h2, if_pos hloc, hset1, hset0]
        rfl
      · have h2 : 0 < device.location.length := List.length_pos.mpr hloc
        rw [if_pos h2, if_neg hloc, tagSet_addTag _ _ _ hwf1
          (by rw [hcnt1]; simp [clearTags, MAX_TAGS]), hset1, hset0]
        rfl
  refine ⟨fun hid hloc => ?_, hgen⟩
  rw [hgen, if_neg hid, if_neg hloc]
  rfl

theorem setDevice_tagSet_witness :
    (addTags (construct [] [] []) (List.replicate 10 { key := ['k'], value := ['v'] })).WellFormed ∧
      (("d1".toList ≠ [] → "B1".toList ≠ [] →
        (setDevice
            (addTags (construct [] [] []) (List.replicate 10 { key := ['k'], value := ['v'] }))
            { id := "d1".toList, location := "B1".toList }).tagSet
          = [{ key := "device".toList, value := "d1".toList },
              { key := "location".toList, value := "B1".toList }])) :=
  ⟨by decide,
    (setDevice_tagSet
      (addTags (construct [] [] []) (List.replicate 10 { key := ['k'], value := ['v'] }))
      { id := "d1".toList, location := "B1".toList } (by decide)).1⟩

/-- C9. From an empty batch in batching mode (batch array of its declared size), `n`
consecutive `writePoint` calls of any overloads: the call at position `i` (counted from 0)
returns true exactly when `i < 50`; afterwards the batch size is `min n 50`, the batch holds
the lines of the first `min n 50` calls in write order, and the world (the transport) is
untouched. -/
theorem writePoints_batch_capacity (w fuel : Nat) (c : Client) (world : World)
    (calls : List PointCall) (hwf : c.WellFormed) (hmode : c.batchMode = true)
    (hempty : c.batchCount = 0) :
    (writePoints w fuel calls c world).1
        = (List.range calls.length).map (fun i => some (decide (i < MAX_BATCH_SIZE))) ∧
      (writePoints w fuel calls c world).2.1.batchCount = min calls.length MAX_BATCH_SIZE ∧
      (writePoints w fuel calls c world).2.1.batch
        = (calls.take MAX_BATCH_SIZE).map (PointCall.line w c) ∧
      (writePoints w fuel calls c world).2.2 = world := by
  obtain ⟨h1, h2, h3, h4⟩ := writePoints_from w fuel c world calls c hwf hmode rfl rfl
  have hb : c.batch = [] := by simp [Client.batch, hempty]
  rw [hempty] at h1 h2 h3
  rw [hb] at h3
  refine ⟨?_, ?_, ?_, h4⟩
  · rw [h1]
    apply List.map_congr_left
    intro i _
    simp
  · rw [h2]
    simp only [Nat.zero_add]
    split
    · omega
    · simp only [MAX_BATCH_SIZE] at *
      omega
  · rw [h3]
    simp

theorem writePoints_batch_capacity_witness :
    (beginBatch (construct [] [] [])).WellFormed ∧
      (beginBatch (construct [] [] [])).batchMode = true ∧
      (beginBatch (construct [] [] [])).batchCount = 0 ∧
      (writePoints 32 0 (List.replicate 52 (PointCall.int 1 "test".toList "value".toList 7))
          (beginBatch (construct [] [] [])) ⟨false, fun _ => ⟨500, []⟩, 0, []⟩).2.1.batchCount
        = min (List.replicate 52 (PointCall.int 1 "test".toList "value".toList 7)).length
            MAX_BATCH_SIZE :=
  ⟨by decide, rfl, rfl,
    (writePoints_batch_capacity 32 0 (beginBatch (construct [] [] []))
      ⟨false, fun _ => ⟨500, []⟩, 0, []⟩
      (List.replicate 52 (PointCall.int 1 "test".toList "value".toList 7))
      (by decide) rfl rfl).2.1⟩

/-- C10. With `K ≥ 1` lines buffered, the transport connected and fuel for at least one
step: the payload built by `flushBatch` is the buffered lines in buffer order joined by
single newlines (the first line, then each further line after one newline, so its length is
the sum of the line lengths plus `K - 1`); the first thing `flushBatch` adds to the trace is
a POST of that payload, and everything it adds after that is a POST of the same payload or a
delay of `retryDelay`. -/
theorem flushBatch_payload (fuel : Nat) (c : Client) (world : World) (hK : 1 ≤ c.batchCount)
    (hconn : world.connected = true) (hfuel : 0 < fuel) :
    batchData c = joinLines c.batch ∧
      c.batch.length = c.batchCount ∧
      joinLines c.batch
        = c.batch.headD [] ++ c.batch.tail.flatMap (fun l => '\n' :: l) ∧
      (joinLines c.batch).length = (c.batch.map List.length).sum + (c.batchCount - 1) ∧
      ∃ evs, (flushBatch fuel c world).world.trace
          = world.trace
            ++ Event.post c.url c.token c.config.timeout (joinLines c.batch) :: evs ∧
        ∀ e ∈ evs, e = Event.post c.url c.token c.config.timeout (joinLines c.batch) ∨
          e = Event.delay c.config.retryDelay := by
  have hlen : c.batch.length = c.batchCount := by simp [Client.batch]
  have hne : c.batch ≠ [] := by
    intro h
    rw [h] at hlen
    simp at hlen
    omega
  refine ⟨batchData_eq c, hlen, ?_, ?_, ?_⟩
  · cases hb : c.batch with
    | nil => exact absurd hb hne
    | cons l ls => rw [joinLines_cons]; rfl
  · rw [length_joinLines _ hne, hlen]
  · rw [flushBatch_world fuel c world (by omega), batchData_eq]
    exact sendToInfluxDB_events fuel c world _ hconn hfuel

theorem flushBatch_payload_witness :
    1 ≤ (addToBatch (addToBatch (addToBatch (construct [] [] []) "a v=1i 5".toList).2
        "b v=2i 6".toList).2 "c v=3i 7".toList).2.batchCount ∧
      (⟨true, fun _ => ⟨500, []⟩, 0, []⟩ : World).connected = true ∧
      0 < 3 ∧
      batchData (addToBatch (addToBatch (addToBatch (construct [] [] []) "a v=1i 5".toList).2
          "b v=2i 6".toList).2 "c v=3i 7".toList).2
        = joinLines (addToBatch (addToBatch (addToBatch (construct [] [] [])
            "a v=1i 5".toList).2 "b v=2i 6".toList).2 "c v=3i 7".toList).2.batch :=
  ⟨by decide, rfl, by decide,
    (flushBatch_payload 3
      (addToBatch (addToBatch (addToBatch (construct [] [] []) "a v=1i 5".toList).2
        "b v=2i 6".toList).2 "c v=3i 7".toList).2
      ⟨true, fun _ => ⟨500, []⟩, 0, []⟩ (by decide) rfl (by decide)).1⟩

/-- C11 (defect in the code, the one of C12). With `maxRetries = 255`, one line buffered
and a connected transport that answers every POST with status 500, `flushBatch` never
returns: whatever the fuel, the send is still retrying when the fuel runs out, and the batch
still holds its line. The claim asks for a return of false with the batch emptied. -/
theorem flushBatch_never_returns (fuel : Nat) :
    (flushBatch fuel
        (addToBatch (setConfig (construct [] [] []) { maxRetries := 255 }) "t v=1i 5".toList).2
        ⟨true, fun _ => ⟨500, []⟩, 0, []⟩).ret = none ∧
      (flushBatch fuel
        (addToBatch (setConfig (construct [] [] []) { maxRetries := 255 }) "t v=1i 5".toList).2
        ⟨true, fun _ => ⟨500, []⟩, 0, []⟩).client.batch = ["t v=1i 5".toList] := by
  obtain ⟨h1, _, h3⟩ := flushBatch_diverges fuel
    (addToBatch (setConfig (construct [] [] []) { maxRetries := 255 }) "t v=1i 5".toList).2
    ⟨true, fun _ => ⟨500, []⟩, 0, []⟩ rfl (by decide) rfl
    (fun _ => (by decide : ¬ ((200 : Int) ≤ 500 ∧ (500 : Int) < 300)))
  exact ⟨h1, h3.trans (by decide)⟩

/-- C12 (defect in the code). With `maxRetries = 255` and an operation that fails on every
invocation `retryOperation` never returns: whatever the fuel, the loop is still running when
the fuel runs out, having invoked the operation once per unit of fuel, because the `uint8_t`
counter wraps from 255 to 0 and `attempt <= 255` stays true. The claim asks for a return of
false after 256 invocations. With `maxRetries = 3` the operation is invoked 4 times and false
is returned. -/
theorem retryRun_never_returns (fuel : Nat) :
    (retryRun { maxRetries := 255 } (fun _ => false) fuel).1 = none ∧
      (retryRun { maxRetries := 255 } (fun _ => false) fuel).2.count Step.call = fuel ∧
      retryRun { maxRetries := 3 } (fun _ => false) 5 = (some false, expectedSteps 1000 4) ∧
      (expectedSteps 1000 4).count Step.call = 4 := by
  obtain ⟨h1, h2⟩ := retryLoop_wraps { maxRetries := 255 } (fun _ => false) rfl (fun _ => rfl)
    fuel 0 [] (by omega)
  refine ⟨h1, ?_, ?_, by decide⟩
  · unfold retryRun retryOperation
    rw [h2]
    simp
  · exact retryRun_always_failing { maxRetries := 3 } (fun _ => false) 5 (by decide)
      (fun _ => rfl) (by decide)

/-- C13. For every `maxRetries` and every scripted operation whose first success is its
`k`-th invocation, `1 ≤ k ≤ maxRetries + 1`: given fuel for `k` iterations, `retryOperation`
returns true, and its log is the expected one for `k` invocations, which holds exactly `k`
invocations. -/
theorem retryRun_first_success (config : Config) (outcome : Nat → Bool) (k fuel : Nat)
    (hk : 1 ≤ k) (hle : k ≤ config.maxRetries.val + 1)
    (hfail : ∀ i, i < k - 1 → outcome i = false) (hsucc : outcome (k - 1) = true)
    (hfuel : k ≤ fuel) :
    retryRun config outcome fuel = (some true, expectedSteps config.retryDelay k) ∧
      (expectedSteps config.retryDelay k).count Step.call = k := by
  refine ⟨?_, count_call_expectedSteps _ k⟩
  have hmax : config.maxRetries.val < 256 := config.maxRetries.isLt
  obtain ⟨f, rfl⟩ : ∃ f, fuel = (f + 1) + (k - 1) := ⟨fuel - k, by omega⟩
  have h := retryLoop_failing_prefix config outcome (k - 1) (f + 1) 0 (by omega)
    (fun i _ h2 => hfail i (by omega))
  simp only [Nat.zero_add, Nat.zero_mod] at h
  have e0 : expectedSteps config.retryDelay 0 = [] := rfl
  rw [e0] at h
  unfold retryRun retryOperation
  have hmod : (k - 1) % 256 = k - 1 := Nat.mod_eq_of_lt (by omega)
  rw [h, retryLoop_success_step config outcome f (k - 1) (by omega) hsucc, hmod,
    expectedSteps_succ]
  have e : k - 1 + 1 = k := by omega
  rw [e]

theorem retryRun_first_success_witness :
    1 ≤ 2 ∧ 2 ≤ ({ maxRetries := 3 } : Config).maxRetries.val + 1 ∧
      (∀ i, i < 2 - 1 → (fun i => decide (i = 1)) i = false) ∧
      (fun i => decide (i = 1)) (2 - 1) = true ∧ 2 ≤ 5 ∧
      (retryRun { maxRetries := 3 } (fun i => decide (i = 1)) 5
          = (some true, expectedSteps ({ maxRetries := 3 } : Config).retryDelay 2) ∧
        (expectedSteps ({ maxRetries := 3 } : Config).retryDelay 2).count Step.call = 2) :=
  ⟨by decide, by decide, by intro i hi; simp; omega, by decide, by decide,
    retryRun_first_success { maxRetries := 3 } (fun i => decide (i = 1)) 2 5 (by decide)
      (by decide) (by intro i hi; simp; omega) (by decide) (by decide)⟩

/-- C14 (defect in the code, the one of C12). With `maxRetries = 255` and an operation that
fails 256 times and then succeeds, the run returns true after 257 invocations but makes only
255 delays: the counter has wrapped to 0 before the 257th invocation, so no delay precedes
it. The claim asks for 256 delays, one before each invocation but the first. -/
theorem retryRun_missing_delay :
    retryRun { maxRetries := 255 } (fun i => decide (i = 256)) 257
        = (some true, expectedSteps 1000 256 ++ [Step.call]) ∧
      (expectedSteps 1000 256 ++ [Step.call]).count Step.call = 257 ∧
      (expectedSteps 1000 256 ++ [Step.call]).countP (fun s => s ≠ Step.call) = 255 ∧
      expectedSteps 1000 257 = expectedSteps 1000 256 ++ [Step.sleep 1000, Step.call] := by
  refine ⟨?_, ?_, ?_, rfl⟩
  · have h := retryLoop_failing_prefix { maxRetries := 255 } (fun i => decide (i = 256)) 256 1 0
      (by decide) (fun i _ h2 => by simp; omega)
    unfold retryRun retryOperation
    have e0 : expectedSteps ({ maxRetries := 255 } : Config).retryDelay 0 = [] := rfl
    rw [e0] at h
    rw [h]
    have h2 := retryLoop_success_step { maxRetries := 255 } (fun i => decide (i = 256)) 0 256
      (by decide) (by decide)
    exact h2
  · rw [List.count_append, count_call_expectedSteps]
    rfl
  · rw [List.countP_append, count_sleep_expectedSteps]
    rfl

/-- C15. A `Device` is valid exactly when its id is non-empty of length at most 64, its type
non-empty of length at most 32, its description of length at most 128 and its `Location`
valid; a `Location` is valid exactly when its building is non-empty of length at most 64 and
floor, room and zone have length at most 32. So a device with an empty id and a location
with an empty building are invalid, as in the repository's tests. -/
theorem isValid_device_location (d : Device) (l : Location) :
    (d.isValid = true ↔
        d.id ≠ [] ∧ d.id.length ≤ 64 ∧ d.type ≠ [] ∧ d.type.length ≤ 32 ∧
          d.description.length ≤ 128 ∧ d.location.isValid = true) ∧
      (l.isValid = true ↔
        l.building ≠ [] ∧ l.building.length ≤ 64 ∧ l.floor.length ≤ 32 ∧
          l.room.length ≤ 32 ∧ l.zone.length ≤ 32) ∧
      (d.id = [] → d.isValid = false) ∧
      (l.building = [] → l.isValid = false) ∧
      Location.isValid ⟨"Building-A".toList, "Floor-1".toList, "Room-101".toList,
        "Zone-1".toList⟩ = true ∧
      Location.isValid ⟨[], "Floor-1".toList, "Room-101".toList, "Zone-1".toList⟩ = false ∧
      Device.isValid ⟨"device-001".toList,
        ⟨"Building-A".toList, "Floor-1".toList, "Room-101".toList, "Zone-1".toList⟩,
        "sensor".toList, "Test device".toList⟩ = true ∧
      Device.isValid ⟨[],
        ⟨"Building-A".toList, "Floor-1".toList, "Room-101".toList, "Zone-1".toList⟩,
        "sensor".toList, "Test device".toList⟩ = false := by
  refine ⟨?_, ?_, ?_, ?_, by decide, by decide, by decide, by decide⟩
  · simp [Device.isValid, and_assoc]
  · simp [Location.isValid, and_assoc]
  · intro h
    simp [Device.isValid, h]
  · intro h
    simp [Location.isValid, h]

/-- C16. A `Measurement` is valid exactly when its name is non-empty of length at most 64,
its field non-empty of length at most 32 and its value non-empty of length at most 64; the
time plays no part, and a measurement with an empty name is invalid, as in the repository's
test. -/
theorem isValid_measurement (m : Measurement) (t : Nat) :
    (m.isValid = true ↔
        m.name ≠ [] ∧ m.name.length ≤ 64 ∧ m.field ≠ [] ∧ m.field.length ≤ 32 ∧
          m.value ≠ [] ∧ m.value.length ≤ 64) ∧
      Measurement.isValid { m with time := t } = m.isValid ∧
      (m.name = [] → m.isValid = false) ∧
      Measurement.isValid ⟨"temperature".toList, "value".toList, "23.5".toList, 0⟩ = true ∧
      Measurement.isValid ⟨[], "value".toList, "23.5".toList, 0⟩ = false := by
  refine ⟨?_, rfl, ?_, by decide, by decide⟩
  · simp [Measurement.isValid, and_assoc]
  · intro h
    simp [Measurement.isValid, h]

/-- C17, as the claim states it, fails: on a client in batching mode with no line buffered
`endBatch` returns false and the client is still in batching mode afterwards. -/
theorem endBatch_empty_stays_batching :
    (beginBatch (construct [] [] [])).batchMode = true ∧
      (beginBatch (construct [] [] [])).batchCount = 0 ∧
      (endBatch 5 (beginBatch (construct [] [] [])) ⟨true, fun _ => ⟨204, []⟩, 0, []⟩).ret
        = some false ∧
      (endBatch 5 (beginBatch (construct [] [] []))
        ⟨true, fun _ => ⟨204, []⟩, 0, []⟩).client.batchMode = true := by
  decide

/-- C17, amended. On a client in batching mode with at least one line buffered: whenever
`endBatch` returns, whatever it returns, the client is idle and the batch is empty; and it
does return when the transport is not connected, and when `maxRetries` is below 255 and the
fuel is at least `maxRetries + 2`. With no line buffered `endBatch` returns false and
changes nothing, the client staying in batching mode. `beginBatch` puts any client in
batching mode. -/
theorem endBatch_idle (fuel : Nat) (c c0 : Client) (world : World) (hmode : c.batchMode = true) :
    (1 ≤ c.batchCount → ∀ b, (endBatch fuel c world).ret = some b →
        (endBatch fuel c world).client.batchMode = false ∧
          (endBatch fuel c world).client.batchCount = 0 ∧
          (endBatch fuel c world).client.batch = []) ∧
      (1 ≤ c.batchCount →
        (world.connected = false ∨
          (c.config.maxRetries.val < 255 ∧ c.config.maxRetries.val + 2 ≤ fuel)) →
        ∃ b, (endBatch fuel c world).ret = some b) ∧
      (c.batchCount = 0 → endBatch fuel c world = ⟨some false, c, world⟩) ∧
      (beginBatch c0).batchMode = true := by
  refine ⟨?_, ?_, fun h => endBatch_guard fuel c world (Or.inr h), rfl⟩
  · intro h1 b hb
    have h0 : c.batchCount ≠ 0 := by omega
    obtain ⟨e1, e2⟩ := endBatch_of_flush fuel c world hmode h0
    obtain ⟨_, f2, _⟩ := flushBatch_spec fuel c world
    cases hr : (flushBatch fuel c world).ret with
    | none =>
      rw [e2 hr, hr] at hb
      simp at hb
    | some b2 =>
      obtain ⟨g1, g2, _⟩ := f2 b2 hr
      rw [e1 b2 hr]
      refine ⟨rfl, g1, ?_⟩
      simpa [Client.batch] using g1
  · intro h1 h
    have h0 : c.batchCount ≠ 0 := by omega
    obtain ⟨e1, _⟩ := endBatch_of_flush fuel c world hmode h0
    obtain ⟨_, _, f3⟩ := flushBatch_spec fuel c world
    obtain ⟨b, hb⟩ := f3 h
    rw [e1 b hb]
    exact ⟨b, rfl⟩

theorem endBatch_idle_witness :
    (addToBatch (beginBatch (construct [] [] [])) "t v=1i 5".toList).2.batchMode = true ∧
      (1 ≤ (addToBatch (beginBatch (construct [] [] [])) "t v=1i 5".toList).2.batchCount →
        ∀ b, (endBatch 5 (addToBatch (beginBatch (construct [] [] [])) "t v=1i 5".toList).2
            ⟨true, fun _ => ⟨500, []⟩, 0, []⟩).ret = some b →
          (endBatch 5 (addToBatch (beginBatch (construct [] [] [])) "t v=1i 5".toList).2
              ⟨true, fun _ => ⟨500, []⟩, 0, []⟩).client.batchMode = false ∧
            (endBatch 5 (addToBatch (beginBatch (construct [] [] [])) "t v=1i 5".toList).2
              ⟨true, fun _ => ⟨500, []⟩, 0, []⟩).client.batchCount = 0 ∧
            (endBatch 5 (addToBatch (beginBatch (construct [] [] [])) "t v=1i 5".toList).2
              ⟨true, fun _ => ⟨500, []⟩, 0, []⟩).client.batch = []) :=
  ⟨rfl,
    (endBatch_idle 5 (addToBatch (beginBatch (construct [] [] [])) "t v=1i 5".toList).2
      (construct [] [] []) ⟨true, fun _ => ⟨500, []⟩, 0, []⟩ rfl).1⟩

/-- C18. On a client in batching mode, whatever the world (disconnected or failing
transports included) and whatever the batch count: every `writePoint` overload and
`writeMeasurement` return true exactly when the batch holds fewer than 50 lines before the
call, and leave the world as it was (no POST, no delay). -/
theorem write_while_batching (w fuel : Nat) (c : Client) (world : World) (millis : Nat)
    (call : PointCall) (measurement : Nested.Measurement) (hmode : c.batchMode = true) :
    (call.run w fuel c world).ret = some (decide (c.batchCount < MAX_BATCH_SIZE)) ∧
      (call.run w fuel c world).world = world ∧
      (writeMeasurement w fuel c world millis measurement).ret
        = some (decide (c.batchCount < MAX_BATCH_SIZE)) ∧
      (writeMeasurement w fuel c world millis measurement).world = world := by
  have hadd : ∀ (c1 : Client) (line : Str),
      (addToBatch c1 line).1 = decide (c1.batchCount < MAX_BATCH_SIZE) := by
    intro c1 line
    unfold addToBatch
    by_cases h : c1.batchCount ≥ MAX_BATCH_SIZE
    · rw [if_pos h]
      have : ¬ c1.batchCount < MAX_BATCH_SIZE := by omega
      simp [this]
    · rw [if_neg h]
      have : c1.batchCount < MAX_BATCH_SIZE := by omega
      simp [this]
  have hm0 : (clearError c).batchMode = true := hmode
  have hc0 : (clearError c).batchCount = c.batchCount := rfl
  refine ⟨?_, ?_, ?_, ?_⟩
  · cases call with
    | str ms m f v => simp only [PointCall.run, writePointString, hmode, if_true, hadd]
    | int ms m f v => simp only [PointCall.run, writePointInt, hmode, if_true, hadd]
    | float ms m f v =>
      simp only [PointCall.run, writePointFloat, hm0, if_true, hadd, hc0]
      by_cases h : c.batchCount < MAX_BATCH_SIZE <;> simp [h]
  · cases call with
    | str ms m f v => simp only [PointCall.run, writePointString, hmode, if_true]
    | int ms m f v => simp only [PointCall.run, writePointInt, hmode, if_true]
    | float ms m f v =>
      simp only [PointCall.run, writePointFloat, hm0, if_true]
      split <;> rfl
  · simp only [writeMeasurement, hmode, if_true, hadd]
  · simp only [writeMeasurement, hmode, if_true]

theorem write_while_batching_witness :
    (beginBatch (construct [] [] [])).batchMode = true ∧
      (writeMeasurement 32 0 (beginBatch (construct [] [] []))
          ⟨false, fun _ => ⟨500, []⟩, 0, []⟩ 7
          { name := "temp".toList, field := "value".toList, value := "23.5".toList }).ret
        = some (decide ((beginBatch (construct [] [] [])).batchCount < MAX_BATCH_SIZE)) :=
  ⟨rfl,
    (write_while_batching 32 0 (beginBatch (construct [] [] []))
      ⟨false, fun _ => ⟨500, []⟩, 0, []⟩ 7 (PointCall.int 7 "temp".toList "value".toList 23)
      { name := "temp".toList, field := "value".toList, value := "23.5".toList } rfl).2.2.1⟩

/-- C19 (defect in the code). Three operations return false and leave the error slot at
`NO_ERROR`: `addTag` on a full tag set, `endBatch` on a client that is not batching (or has
nothing buffered), and `writeMeasurements` of no measurement, which ends in that `endBatch`.
The claim asks for an error code other than `NO_ERROR` after every false. -/
theorem false_without_error :
    (addTag (addTags (construct [] [] []) (List.replicate 10 { key := ['k'], value := ['v'] }))
        ['a'] ['b']).1 = false ∧
      (addTag (addTags (construct [] [] []) (List.replicate 10 { key := ['k'], value := ['v'] }))
        ['a'] ['b']).2.lastError = ErrorCode.NO_ERROR ∧
      (endBatch 5 (construct [] [] []) ⟨true, fun _ => ⟨204, []⟩, 0, []⟩).ret = some false ∧
      (endBatch 5 (construct [] [] []) ⟨true, fun _ => ⟨204, []⟩, 0, []⟩).client.lastError
        = ErrorCode.NO_ERROR ∧
      (writeMeasurements 32 5 (construct [] [] []) ⟨true, fun _ => ⟨204, []⟩, 0, []⟩
        (fun _ => 0) []).ret = some false ∧
      (writeMeasurements 32 5 (construct [] [] []) ⟨true, fun _ => ⟨204, []⟩, 0, []⟩
        (fun _ => 0) []).client.lastError = ErrorCode.NO_ERROR := by
  decide

/-- C20. In every client reachable from a freshly constructed one by the public operations,
with any arguments and in any world, the tag count is at most 10 and the batch count at most
50, the two arrays have their declared sizes, and so every index below a counter is an index
of its array. -/
theorem reachable_inBounds (c : Client) (h : Reachable c) :
    c.tagCount ≤ MAX_TAGS ∧ c.batchCount ≤ MAX_BATCH_SIZE ∧
      c.tags.length = MAX_TAGS ∧ c.batchBuffer.length = MAX_BATCH_SIZE ∧
      (∀ i, i < c.tagCount → i < c.tags.length) ∧
      (∀ i, i < c.batchCount → i < c.batchBuffer.length) := by
  obtain ⟨⟨h1, h2⟩, h3, h4⟩ := reachable_inv h
  exact ⟨h3, h4, h1, h2, fun i hi => by omega, fun i hi => by omega⟩

theorem reachable_inBounds_witness :
    Reachable (addTag (construct [] [] []) "site".toList "lab".toList).2 ∧
      ((addTag (construct [] [] []) "site".toList "lab".toList).2.tagCount ≤ MAX_TAGS ∧
        (addTag (construct [] [] []) "site".toList "lab".toList).2.batchCount
          ≤ MAX_BATCH_SIZE ∧
        (addTag (construct [] [] []) "site".toList "lab".toList).2.tags.length = MAX_TAGS ∧
        (addTag (construct [] [] []) "site".toList "lab".toList).2.batchBuffer.length
          = MAX_BATCH_SIZE ∧
        (∀ i, i < (addTag (construct [] [] []) "site".toList "lab".toList).2.tagCount →
          i < (addTag (construct [] [] []) "site".toList "lab".toList).2.tags.length) ∧
        (∀ i, i < (addTag (construct [] [] []) "site".toList "lab".toList).2.batchCount →
          i < (addTag (construct [] [] []) "site".toList "lab".toList).2.batchBuffer.length)) :=
  ⟨Reachable.stepAddTag _ _ (Reachable.init [] [] []),
    reachable_inBounds _ (Reachable.stepAddTag _ _ (Reachable.init [] [] []))⟩

/-- C21, as the claim states it, fails: a measurement with an empty name is not valid, yet in
batching mode `writeMeasurement` returns true, appends its encoded line to the batch and
leaves the error slot at `NO_ERROR`; outside batching mode it posts the line to the
transport. -/
theorem writeMeasurement_accepts_invalid :
    Measurement.isValid (Nested.Measurement.toMeasurement
        { name := [], field := "value".toList, value := "23.5".toList }) = false ∧
      (writeMeasurement 32 0 (beginBatch (construct [] [] []))
          ⟨true, fun _ => ⟨204, []⟩, 0, []⟩ 7
          { name := [], field := "value".toList, value := "23.5".toList }).ret = some true ∧
      (writeMeasurement 32 0 (beginBatch (construct [] [] []))
          ⟨true, fun _ => ⟨204, []⟩, 0, []⟩ 7
          { name := [], field := "value".toList, value := "23.5".toList }).client.batch
        = [" value=\"23.5\" 7000000".toList] ∧
      (writeMeasurement 32 0 (beginBatch (construct [] [] []))
          ⟨true, fun _ => ⟨204, []⟩, 0, []⟩ 7
          { name := [], field := "value".toList, value := "23.5".toList }).client.lastError
        = ErrorCode.NO_ERROR ∧
      (writeMeasurement 32 5 (construct [] [] [])
          ⟨true, fun _ => ⟨204, []⟩, 0, []⟩ 7
          { name := [], field := "value".toList, value := "23.5".toList }).world.trace
        = [Event.post [] [] 5000 " value=\"23.5\" 7000000".toList] := by
  decide

/-- C21, amended. The write path does not validate. For every measurement, valid or not, on
a client whose arrays have their declared sizes: in batching mode with fewer than 50 lines
buffered `writeMeasurement` returns true, appends the encoded line and leaves the world
alone; outside batching mode it is the send of the encoded line; and neither it nor any
`writePoint` overload writes `INVALID_DATA` to the error slot. -/
theorem writeMeasurement_no_validation (w fuel : Nat) (c : Client) (world : World)
    (millis : Nat) (measurement : Nested.Measurement) (call : PointCall)
    (hwf : c.WellFormed) :
    (c.batchMode = true → c.batchCount < MAX_BATCH_SIZE →
        (writeMeasurement w fuel c world millis measurement).ret = some true ∧
          (writeMeasurement w fuel c world millis measurement).client.batch
            = c.batch ++ [measurementLine w c millis measurement] ∧
          (writeMeasurement w fuel c world millis measurement).world = world) ∧
      (c.batchMode = false →
        writeMeasurement w fuel c world millis measurement
          = sendToInfluxDB fuel c world (measurementLine w c millis measurement)) ∧
      (c.lastError ≠ ErrorCode.INVALID_DATA →
        (writeMeasurement w fuel c world millis measurement).client.lastError
          ≠ ErrorCode.INVALID_DATA) ∧
      (c.lastError ≠ ErrorCode.INVALID_DATA →
        (call.run w fuel c world).client.lastError ≠ ErrorCode.INVALID_DATA) := by
  have hsend : ∀ (c1 : Client) (p : Str), c1.lastError ≠ ErrorCode.INVALID_DATA →
      (sendToInfluxDB fuel c1 world p).client.lastError ≠ ErrorCode.INVALID_DATA := by
    intro c1 p h1
    rcases sendToInfluxDB_lastError fuel c1 world p with e | e | e
    · rw [e]; exact h1
    · rw [e]; decide
    · rw [e]; decide
  have hadd : ∀ (c1 : Client) (line : Str), c1.lastError ≠ ErrorCode.INVALID_DATA →
      (addToBatch c1 line).2.lastError ≠ ErrorCode.INVALID_DATA := by
    intro c1 line h1
    unfold addToBatch
    split
    · simp [setError]
    · exact h1
  have hclear : (clearError c).lastError ≠ ErrorCode.INVALID_DATA := by
    simp [clearError]
  refine ⟨?_, ?_, ?_, ?_⟩
  · intro hmode hroom
    obtain ⟨a1, _, _, _, _, _, a7⟩ := addToBatch_spec c (measurementLine w c millis measurement) hwf
    simp only [writeMeasurement, hmode, if_true]
    rw [a1, a7, if_pos hroom]
    exact ⟨by simp [hroom], rfl, trivial⟩
  · intro hmode
    simp [writeMeasurement, hmode]
  · intro h1
    simp only [writeMeasurement]
    split
    · exact hadd _ _ h1
    · exact hsend _ _ h1
  · intro h1
    cases call with
    | str ms m f v =>
      simp only [PointCall.run, writePointString]
      split
      · exact hadd _ _ h1
      · exact hsend _ _ h1
    | int ms m f v =>
      simp only [PointCall.run, writePointInt]
      split
      · exact hadd _ _ h1
      · exact hsend _ _ h1
    | float ms m f v =>
      simp only [PointCall.run, writePointFloat]
      split
      · split
        · simp [setError]
        · exact hadd _ _ hclear
      · exact hsend _ _ hclear

theorem writeMeasurement_no_validation_witness :
    (beginBatch (construct [] [] [])).WellFormed ∧
      ((beginBatch (construct [] [] [])).batchMode = true →
        (beginBatch (construct [] [] [])).batchCount < MAX_BATCH_SIZE →
        (writeMeasurement 32 0 (beginBatch (construct [] [] []))
            ⟨false, fun _ => ⟨500, []⟩, 0, []⟩ 7
            { name := [], field := "value".toList, value := "23.5".toList }).ret = some true ∧
          (writeMeasurement 32 0 (beginBatch (construct [] [] []))
              ⟨false, fun _ => ⟨500, []⟩, 0, []⟩ 7
              { name := [], field := "value".toList, value := "23.5".toList }).client.batch
            = (beginBatch (construct [] [] [])).batch
              ++ [measurementLine 32 (beginBatch (construct [] [] [])) 7
                { name := [], field := "value".toList, value := "23.5".toList }] ∧
          (writeMeasurement 32 0 (beginBatch (construct [] [] []))
              ⟨false, fun _ => ⟨500, []⟩, 0, []⟩ 7
              { name := [], field := "value".toList, value := "23.5".toList }).world
            = ⟨false, fun _ => ⟨500, []⟩, 0, []⟩) :=
  ⟨by decide,
    (writeMeasurement_no_validation 32 0 (beginBatch (construct [] [] []))
      ⟨false, fun _ => ⟨500, []⟩, 0, []⟩ 7
      { name := [], field := "value".toList, value := "23.5".toList }
      (PointCall.str 7 [] [] []) (by decide)).1⟩

/-- C22, as the claim states it, fails: with `maxRetries = 3` and a transport that answers
every POST with status 401 (and likewise 400), the send posts four times, not once, and
fails with `HTTP_ERROR`, not with `AUTH_ERROR` or `INVALID_DATA`. -/
theorem sendToInfluxDB_retries_4xx :
    (sendToInfluxDB 10 (construct [] [] []) ⟨true, fun _ => ⟨401, []⟩, 0, []⟩
        "t v=1i 5".toList).ret = some false ∧
      (sendToInfluxDB 10 (construct [] [] []) ⟨true, fun _ => ⟨401, []⟩, 0, []⟩
        "t v=1i 5".toList).world.posted = 4 ∧
      (sendToInfluxDB 10 (construct [] [] []) ⟨true, fun _ => ⟨401, []⟩, 0, []⟩
        "t v=1i 5".toList).client.lastError = ErrorCode.HTTP_ERROR ∧
      (sendToInfluxDB 10 (construct [] [] []) ⟨true, fun _ => ⟨400, []⟩, 0, []⟩
        "t v=1i 5".toList).world.posted = 4 ∧
      (sendToInfluxDB 10 (construct [] [] []) ⟨true, fun _ => ⟨400, []⟩, 0, []⟩
        "t v=1i 5".toList).client.lastError = ErrorCode.HTTP_ERROR := by
  decide

/-- C22, amended. For every `maxRetries` below 255, on a connected transport that answers
every POST with a status outside `200 .. 299`, whatever its class: given fuel for the whole
loop, the send makes exactly `maxRetries + 1` POSTs, returns false and leaves `HTTP_ERROR`
in the error slot. -/
theorem sendToInfluxDB_retries_every_failure (fuel : Nat) (c : Client) (world : World)
    (p : Str) (hconn : world.connected = true) (hfail : world.alwaysFails)
    (hmax : c.config.maxRetries.val < 255) (hfuel : c.config.maxRetries.val + 2 ≤ fuel) :
    (sendToInfluxDB fuel c world p).ret = some false ∧
      (sendToInfluxDB fuel c world p).world.posted
        = world.posted + (c.config.maxRetries.val + 1) ∧
      (sendToInfluxDB fuel c world p).world.trace.countP Event.isPost
        = world.trace.countP Event.isPost + (c.config.maxRetries.val + 1) ∧
      (sendToInfluxDB fuel c world p).client.lastError = ErrorCode.HTTP_ERROR := by
  have h := retryLoop_all_fail c.config p hmax fuel 0 (c, world) (by omega) (by omega) hfail
    (Or.inl rfl)
  unfold sendToInfluxDB
  rw [if_neg (by simp [hconn])]
  exact h

theorem sendToInfluxDB_retries_every_failure_witness :
    (⟨true, fun _ => ⟨403, []⟩, 0, []⟩ : World).connected = true ∧
      (⟨true, fun _ => ⟨403, []⟩, 0, []⟩ : World).alwaysFails ∧
      (construct [] [] []).config.maxRetries.val < 255 ∧
      (construct [] [] []).config.maxRetries.val + 2 ≤ 5 ∧
      ((sendToInfluxDB 5 (construct [] [] []) ⟨true, fun _ => ⟨403, []⟩, 0, []⟩
          "t v=1i 5".toList).ret = some false ∧
        (sendToInfluxDB 5 (construct [] [] []) ⟨true, fun _ => ⟨403, []⟩, 0, []⟩
            "t v=1i 5".toList).world.posted
          = (⟨true, fun _ => ⟨403, []⟩, 0, []⟩ : World).posted
            + ((construct [] [] []).config.maxRetries.val + 1) ∧
        (sendToInfluxDB 5 (construct [] [] []) ⟨true, fun _ => ⟨403, []⟩, 0, []⟩
            "t v=1i 5".toList).world.trace.countP Event.isPost
          = (⟨true, fun _ => ⟨403, []⟩, 0, []⟩ : World).trace.countP Event.isPost
            + ((construct [] [] []).config.maxRetries.val + 1) ∧
        (sendToInfluxDB 5 (construct [] [] []) ⟨true, fun _ => ⟨403, []⟩, 0, []⟩
            "t v=1i 5".toList).client.lastError = ErrorCode.HTTP_ERROR) :=
  ⟨rfl, fun _ => (by decide : ¬ ((200 : Int) ≤ 403 ∧ (403 : Int) < 300)), by decide, by decide,
    sendToInfluxDB_retries_every_failure 5 (construct [] [] [])
      ⟨true, fun _ => ⟨403, []⟩, 0, []⟩ "t v=1i 5".toList rfl
      (fun _ => (by decide : ¬ ((200 : Int) ≤ 403 ∧ (403 : Int) < 300))) (by decide)
      (by decide)⟩

/-- C23, as the claim states it, fails: with the default time unit set to `SECONDS`, a
measurement in `SECONDS` with `time == 0` and the clock at 1500 ms, the final token is
`1000000000` (the whole seconds of the reading, in nanoseconds), not `1500000000`, on a
64-bit `unsigned long` where nothing wraps. -/
theorem measurementLine_whole_seconds :
    measurementLine 64 (setTimeUnit (construct [] [] []) TimeUnit.SECONDS) 1500
        { name := "temp".toList, field := "value".toList, value := "23.5".toList, time := 0,
          unit := TimeUnit.SECONDS }
      = "temp value=\"23.5\" 1000000000".toList ∧
      stringOfNat (1500 * 1000000) = "1500000000".toList ∧
      (writeMeasurement 64 0 (beginBatch (setTimeUnit (construct [] [] []) TimeUnit.SECONDS))
          ⟨true, fun _ => ⟨204, []⟩, 0, []⟩ 1500
          { name := "temp".toList, field := "value".toList, value := "23.5".toList, time := 0,
            unit := TimeUnit.SECONDS }).client.batch
        = ["temp value=\"23.5\" 1000000000".toList] := by
  decide

/-- C23, amended. The line of `writeMeasurement` ends, after a space, in the timestamp token.
For `time == 0`, when the unit of the measurement is the configured default unit and
`millis * 1000000` fits in `unsigned long`, the token is the clock reading at the
granularity of that unit, in nanoseconds: `(millis / 1000) * 1000000000` for `SECONDS` and
`millis * 1000000` for the other three units. For `time > 0` the token is
`formatTimestamp(time, unit)` of the caller's value. `writeMeasurement` hands that line to
`addToBatch` or to `sendToInfluxDB`. -/
theorem measurementLine_timestamp (w fuel : Nat) (c : Client) (world : World) (millis : Nat)
    (measurement : Nested.Measurement) :
    (measurement.time = 0 → measurement.unit = c.timeUnit → millis * 1000000 < 2 ^ w →
        measurementLine w c millis measurement
          = escapeString measurement.name ++ c.tagSet.flatMap tagSegment ++ [' ']
            ++ escapeString measurement.field ++ ['=', '"'] ++ escapeString measurement.value
            ++ ['"'] ++ [' ']
            ++ stringOfNat (if c.timeUnit = TimeUnit.SECONDS then millis / 1000 * 1000000000
                else millis * 1000000)) ∧
      (0 < measurement.time →
        measurementLine w c millis measurement
          = escapeString measurement.name ++ c.tagSet.flatMap tagSegment ++ [' ']
            ++ escapeString measurement.field ++ ['=', '"'] ++ escapeString measurement.value
            ++ ['"'] ++ [' '] ++ formatTimestamp w measurement.time measurement.unit) ∧
      writeMeasurement w fuel c world millis measurement
        = if c.batchMode then
            ⟨some (addToBatch c (measurementLine w c millis measurement)).1,
              (addToBatch c (measurementLine w c millis measurement)).2, world⟩
          else sendToInfluxDB fuel c world (measurementLine w c millis measurement) := by
  refine ⟨?_, ?_, rfl⟩
  · intro h0 hu hfit
    rw [measurementLine_eq, if_neg (by omega), hu]
    congr 1
    unfold getCurrentTimestamp formatTimestamp
    cases hc : c.timeUnit with
    | SECONDS =>
      simp only [if_true]
      rw [mulULong_of_lt]
      omega
    | MILLISECONDS =>
      simp only [if_neg (by decide : ¬ TimeUnit.MILLISECONDS = TimeUnit.SECONDS)]
      rw [mulULong_of_lt _ _ _ hfit]
    | MICROSECONDS =>
      simp only [if_neg (by decide : ¬ TimeUnit.MICROSECONDS = TimeUnit.SECONDS)]
      rw [mulULong_of_lt w millis 1000 (by omega), mulULong_of_lt w (millis * 1000) 1000
        (by omega)]
      have e : millis * 1000 * 1000 = millis * 1000000 := by omega
      rw [e]
    | NANOSECONDS =>
      simp only [if_neg (by decide : ¬ TimeUnit.NANOSECONDS = TimeUnit.SECONDS)]
      rw [mulULong_of_lt _ _ _ hfit]
  · intro h
    rw [measurementLine_eq, if_pos h]

theorem measurementLine_timestamp_witness :
    ({ name := "temp".toList, field := "value".toList, value := "23.5".toList } :
        Nested.Measurement).time = 0 ∧
      ({ name := "temp".toList, field := "value".toList, value := "23.5".toList } :
        Nested.Measurement).unit = (construct [] [] []).timeUnit ∧
      1234 * 1000000 < 2 ^ 32 ∧
      measurementLine 32 (construct [] [] []) 1234
          { name := "temp".toList, field := "value".toList, value := "23.5".toList }
        = "temp value=\"23.5\" 1234000000".toList :=
  ⟨rfl, rfl, by decide,
    ((measurementLine_timestamp 32 0 (construct [] [] []) ⟨true, fun _ => ⟨204, []⟩, 0, []⟩
      1234 { name := "temp".toList, field := "value".toList, value := "23.5".toList }).1
      rfl rfl (by decide)).trans (by decide)⟩

/-- C24. The function `escapeString` is injective: two strings with the same escaped form are
the same string. -/
theorem escapeString_injective (s t : Str) (h : escapeString s = escapeString t) : s = t := by
  rw [escapeString_eq, escapeString_eq] at h
  have h2 := congrArg unescape h
  rw [unescape_flatMap_escapeChar, unescape_flatMap_escapeChar] at h2
  exact h2

theorem escapeString_injective_witness :
    escapeString "a,b =c".toList = escapeString "a,b =c".toList ∧
      "a,b =c".toList = "a,b =c".toList :=
  ⟨rfl, escapeString_injective "a,b =c".toList "a,b =c".toList rfl⟩

/-- C25, as the claim states it, fails: `writeMeasurements` of no measurement on a fresh
client (empty batch) returns false and leaves the client in batching mode. -/
theorem writeMeasurements_empty_stays_batching :
    (writeMeasurements 32 5 (construct [] [] []) ⟨true, fun _ => ⟨204, []⟩, 0, []⟩
        (fun _ => 0) []).ret = some false ∧
      (writeMeasurements 32 5 (construct [] [] []) ⟨true, fun _ => ⟨204, []⟩, 0, []⟩
        (fun _ => 0) []).client.batchMode = true := by
  decide

/-- C25, amended. For every client and every list of measurements that fits in the remaining
batch capacity, with at least one line buffered before or one measurement given: whenever
`writeMeasurements` returns, the client is idle and the batch is empty; and it returns when
the transport is not connected, and when `maxRetries` is below 255 and the fuel is at least
`maxRetries + 2`. With no measurement and an empty batch it returns false and leaves the
client in batching mode. -/
theorem writeMeasurements_idle (w fuel : Nat) (c : Client) (world : World) (millis : Nat → Nat)
    (measurements : List Nested.Measurement)
    (hroom : c.batchCount + measurements.length ≤ MAX_BATCH_SIZE) :
    (1 ≤ c.batchCount + measurements.length →
        ∀ b, (writeMeasurements w fuel c world millis measurements).ret = some b →
          (writeMeasurements w fuel c world millis measurements).client.batchMode = false ∧
            (writeMeasurements w fuel c world millis measurements).client.batchCount = 0 ∧
            (writeMeasurements w fuel c world millis measurements).client.batch = []) ∧
      (1 ≤ c.batchCount + measurements.length →
        (world.connected = false ∨
          (c.config.maxRetries.val < 255 ∧ c.config.maxRetries.val + 2 ≤ fuel)) →
        ∃ b, (writeMeasurements w fuel c world millis measurements).ret = some b) ∧
      (c.batchCount = 0 →
        writeMeasurements w fuel c world millis [] = ⟨some false, beginBatch c, world⟩) := by
  obtain ⟨c2, e2, m2, n2, g2⟩ := writeMeasurementsLoop_fits w fuel millis measurements 0
    (beginBatch c) world rfl hroom
  have hn : c2.batchCount = c.batchCount + measurements.length := n2
  have hg : c2.config = c.config := g2
  refine ⟨?_, ?_, ?_⟩
  · intro h1 b hb
    unfold writeMeasurements at hb ⊢
    rw [e2] at hb ⊢
    exact (endBatch_batching fuel c2 world m2 (by omega)).1 b hb
  · intro h1 h
    unfold writeMeasurements
    rw [e2]
    exact (endBatch_batching fuel c2 world m2 (by omega)).2 (by rw [hg]; exact h)
  · intro h0
    unfold writeMeasurements writeMeasurementsLoop
    exact endBatch_guard fuel (beginBatch c) world (Or.inr h0)

theorem writeMeasurements_idle_witness :
    (construct [] [] []).batchCount
        + [({ name := "temp".toList, field := "value".toList, value := "23.5".toList } :
            Nested.Measurement),
          { name := "hum".toList, field := "value".toList, value := "40".toList }].length
        ≤ MAX_BATCH_SIZE ∧
      (1 ≤ (construct [] [] []).batchCount
          + [({ name := "temp".toList, field := "value".toList, value := "23.5".toList } :
              Nested.Measurement),
            { name := "hum".toList, field := "value".toList, value := "40".toList }].length →
        ∀ b, (writeMeasurements 32 5 (construct [] [] []) ⟨true, fun _ => ⟨500, []⟩, 0, []⟩
            (fun _ => 7)
            [{ name := "temp".toList, field := "value".toList, value := "23.5".toList },
              { name := "hum".toList, field := "value".toList, value := "40".toList }]).ret
            = some b →
          (writeMeasurements 32 5 (construct [] [] []) ⟨true, fun _ => ⟨500, []⟩, 0, []⟩
              (fun _ => 7)
              [{ name := "temp".toList, field := "value".toList, value := "23.5".toList },
                { name := "hum".toList, field := "value".toList, value := "40".toList }]
            ).client.batchMode = false ∧
            (writeMeasurements 32 5 (construct [] [] []) ⟨true, fun _ => ⟨500, []⟩, 0, []⟩
              (fun _ => 7)
              [{ name := "temp".toList, field := "value".toList, value := "23.5".toList },
                { name := "hum".toList, field := "value".toList, value := "40".toList }]
            ).client.batchCount = 0 ∧
            (writeMeasurements 32 5 (construct [] [] []) ⟨true, fun _ => ⟨500, []⟩, 0, []⟩
              (fun _ => 7)
              [{ name := "temp".toList, field := "value".toList, value := "23.5".toList },
                { name := "hum".toList, field := "value".toList, value := "40".toList }]
            ).client.batch = []) :=
  ⟨by decide,
    (writeMeasurements_idle 32 5 (construct [] [] []) ⟨true, fun _ => ⟨500, []⟩, 0, []⟩
      (fun _ => 7)
      [{ name := "temp".toList, field := "value".toList, value := "23.5".toList },
        { name := "hum".toList, field := "value".toList, value := "40".toList }]
      (by decide)).1⟩

end LightweightIoT
